import Mathlib

/-!
# Verification of the `Face` class of flatten-js (`src/classes/face.js`)

A face is a closed boundary loop of a polygon, implemented in the source as a
circular doubly-linked list of edges.  The face object holds only the two entry
references `first` and `last`; each edge carries `prev` / `next` links, a
back-reference to its face, a cached cumulative `arc_length`, and its geometric
`shape`.

This file is a shallow embedding of that class:

* edges live in a total store `Nat → EdgeRec` indexed by edge identity
  (JS object identity becomes a `Nat` id);
* the pair of entry references (`first`, `last`), which the source keeps both
  `undefined` or both set, is an `Option (Nat × Nat)`;
* the lazily cached bounding box and orientation are `Option` fields;
* methods become state-passing functions; loops over the circular list become
  fuel-bounded recursions (the JS iterator does not terminate on a corrupted
  loop, so a fuel parameter is the honest total embedding);
* external collaborators that are not part of `face.js` (shape primitives,
  numeric tolerance utilities, the spatial index) are either parameters of the
  embedded operations or small definitions explicitly modelled from the spec,
  marked `Modelled from the spec:` in their doc comments.
-/

/-- A 2D point with rational coordinates (the shape primitives' point type). -/
structure Pt where
  x : ℚ
  y : ℚ
deriving DecidableEq, Repr

/-- A boundary piece: a straight segment or a circular arc.  Only the data the
`Face` methods actually consult is carried: start / end points, and for an arc
its sweep direction flag. -/
inductive Shape where
  | seg (ps pe : Pt)
  | arc (ps pe : Pt) (ccw : Bool)
deriving DecidableEq, Repr

namespace Shape

/-- `instanceof Flatten.Segment` test used by `getSelfIntersections`. -/
def isSegment : Shape → Bool
  | seg _ _ => true
  | arc _ _ _ => false

/-- Modelled from the spec: the shape primitive's `reverse()` capability —
"segment: swap endpoints; arc: swap sweep direction and endpoints". -/
def reverse : Shape → Shape
  | seg ps pe => seg pe ps
  | arc ps pe ccw => arc pe ps (!ccw)

/-- The shape's start point (`edge.start` delegates to `shape.start`). -/
def start : Shape → Pt
  | seg ps _ => ps
  | arc ps _ _ => ps

/-- The shape's end point (`edge.end` delegates to `shape.end`). -/
def «end» : Shape → Pt
  | seg _ pe => pe
  | arc _ pe _ => pe

theorem reverse_reverse (s : Shape) : s.reverse.reverse = s := by
  cases s <;> simp [reverse]

end Shape

/-- An axis-aligned box, as consumed and produced by the face. -/
structure BoxQ where
  xmin : ℚ
  ymin : ℚ
  xmax : ℚ
  ymax : ℚ
deriving DecidableEq, Repr

/-- Modelled from the spec: the shape primitive's bounding-box capability.
For a segment it is the tight box of the two endpoints; for an arc the spec
leaves the primitive unspecified and no theorem below depends on the arc case,
so the endpoint box stands in for it. -/
def shapeBox : Shape → BoxQ
  | .seg ps pe => ⟨min ps.x pe.x, min ps.y pe.y, max ps.x pe.x, max ps.y pe.y⟩
  | .arc ps pe _ => ⟨min ps.x pe.x, min ps.y pe.y, max ps.x pe.x, max ps.y pe.y⟩

/-- Modelled from the spec: `Box.merge` — the union of two axis-aligned boxes. -/
def boxMerge (a b : BoxQ) : BoxQ :=
  ⟨min a.xmin b.xmin, min a.ymin b.ymin, max a.xmax b.xmax, max a.ymax b.ymax⟩

/-- The three values of `Flatten.ORIENTATION`. -/
inductive Orient where
  | CW
  | CCW
  | NOT_ORIENTABLE
deriving DecidableEq, Repr

/-- One edge record: `shape` plus the loop navigation links `prev`/`next`
(edge ids), the face back-reference (here: a flag "belongs to this face"),
and the cached cumulative arc length. -/
structure EdgeRec where
  shape : Shape
  prev : Nat
  next : Nat
  faceSet : Bool
  arc_length : ℚ
deriving DecidableEq, Repr

instance : Inhabited EdgeRec := ⟨⟨.seg ⟨0, 0⟩ ⟨0, 0⟩, 0, 0, false, 0⟩⟩

/-- The face state: the shared edge store, the entry references (`first`,
`last`) — both absent or both present, exactly as in the source — and the two
lazy caches `_box` and `_orientation`. -/
structure FaceState where
  store : Nat → EdgeRec
  entry : Option (Nat × Nat)
  boxCache : Option BoxQ
  orientCache : Option Orient

/-- `this.first`. -/
def FaceState.first (s : FaceState) : Option Nat := s.entry.map Prod.fst

/-- `this.last`. -/
def FaceState.last (s : FaceState) : Option Nat := s.entry.map Prod.snd

/-- A face as freshly constructed: no edges, no caches. -/
def emptyFace : FaceState := ⟨fun _ => default, none, none, none⟩

/-- Update one edge record in the store (a JS field assignment
`edge.f = v` becomes `upd st edge (fun r => { r with f := v })`). -/
def upd (st : Nat → EdgeRec) (i : Nat) (f : EdgeRec → EdgeRec) : Nat → EdgeRec :=
  fun j => if j = i then f (st j) else st j

theorem upd_same (st : Nat → EdgeRec) (i : Nat) (f : EdgeRec → EdgeRec) :
    upd st i f i = f (st i) := by simp [upd]

theorem upd_other (st : Nat → EdgeRec) (i j : Nat) (f : EdgeRec → EdgeRec) (h : j ≠ i) :
    upd st i f j = st j := by simp [upd, h]

/-- `isEmpty()`: `this.first === undefined && this.last === undefined`. -/
def FaceState.isEmpty (s : FaceState) : Bool :=
  s.first.isNone && s.last.isNone

/-- `append(edges, edge)` — transliterated field-assignment by field-assignment.
The external `edges.add(edge)` call (spatial index registration) has no effect
on the face state and is elided.  `len` is the external shape `length`
capability (`edge.prev.length`). -/
def appendE (len : Shape → ℚ) (s : FaceState) (id : Nat) : FaceState :=
  match s.entry with
  | none =>
      -- edge.prev = edge; edge.next = edge; this.first = edge; this.last = edge;
      -- edge.arc_length = 0; edge.face = this
      let st1 := upd s.store id (fun r => { r with prev := id })
      let st2 := upd st1 id (fun r => { r with next := id })
      let st3 := upd st2 id (fun r => { r with arc_length := 0 })
      let st4 := upd st3 id (fun r => { r with faceSet := true })
      { s with store := st4, entry := some (id, id) }
  | some (f, lst) =>
      -- edge.prev = this.last
      let st1 := upd s.store id (fun r => { r with prev := lst })
      -- this.last.next = edge
      let st2 := upd st1 lst (fun r => { r with next := id })
      -- this.last = edge; this.last.next = this.first
      let st3 := upd st2 id (fun r => { r with next := f })
      -- this.first.prev = this.last
      let st4 := upd st3 f (fun r => { r with prev := id })
      -- edge.arc_length = edge.prev.arc_length + edge.prev.length
      let st5 := upd st4 id (fun r =>
        { r with arc_length := (st4 (st4 id).prev).arc_length + len (st4 (st4 id).prev).shape })
      -- edge.face = this
      let st6 := upd st5 id (fun r => { r with faceSet := true })
      { s with store := st6, entry := some (f, id) }

/-- `insert(edges, newEdge, edgeBefore)` — transliterated.  The external
`edges.add(newEdge)` call is elided. -/
def insertE (len : Shape → ℚ) (s : FaceState) (id eb : Nat) : FaceState :=
  match s.entry with
  | none =>
      -- newEdge.prev = newEdge; newEdge.next = newEdge; first := newEdge; last := newEdge
      let st1 := upd s.store id (fun r => { r with prev := id })
      let st2 := upd st1 id (fun r => { r with next := id })
      -- newEdge.face = this
      let st3 := upd st2 id (fun r => { r with faceSet := true })
      -- if (newEdge.prev === this.last) arc := 0 else arc := prev.arc + prev.length
      let st4 :=
        if (st3 id).prev = id then
          upd st3 id (fun r => { r with arc_length := 0 })
        else
          upd st3 id (fun r =>
            { r with arc_length := (st3 (st3 id).prev).arc_length + len (st3 (st3 id).prev).shape })
      { s with store := st4, entry := some (id, id) }
  | some (f, lst) =>
      -- let edgeAfter = edgeBefore.next
      let ea := (s.store eb).next
      -- edgeBefore.next = newEdge
      let st1 := upd s.store eb (fun r => { r with next := id })
      -- edgeAfter.prev = newEdge
      let st2 := upd st1 ea (fun r => { r with prev := id })
      -- newEdge.prev = edgeBefore; newEdge.next = edgeAfter
      let st3 := upd st2 id (fun r => { r with prev := eb })
      let st4 := upd st3 id (fun r => { r with next := ea })
      -- if (this.last === edgeBefore) this.first = newEdge
      let f' := if lst = eb then id else f
      -- newEdge.face = this
      let st5 := upd st4 id (fun r => { r with faceSet := true })
      -- if (newEdge.prev === this.last) arc := 0 else arc := prev.arc + prev.length
      let st6 :=
        if (st5 id).prev = lst then
          upd st5 id (fun r => { r with arc_length := 0 })
        else
          upd st5 id (fun r =>
            { r with arc_length := (st5 (st5 id).prev).arc_length + len (st5 (st5 id).prev).shape })
      { s with store := st6, entry := some (f', lst) }

/-- `remove(edges, edge)` — transliterated.  The external `edges.delete(edge)`
call is elided. -/
def removeE (s : FaceState) (e : Nat) : FaceState :=
  if s.first = some e ∧ s.last = some e then
    -- special case if last edge removed
    { s with entry := none }
  else
    -- edge.prev.next = edge.next; edge.next.prev = edge.prev
    let p := (s.store e).prev
    let n := (s.store e).next
    let st1 := upd s.store p (fun r => { r with next := n })
    let st2 := upd st1 n (fun r => { r with prev := p })
    -- if (edge === this.first) first = edge.next; if (edge === this.last) last = edge.prev
    let entry' :=
      match s.entry with
      | none => none
      | some (f, lst) => some ((if f = e then n else f), (if lst = e then p else lst))
    { s with store := st2, entry := entry' }

/-- The `[Symbol.iterator]` traversal: yield `first`, then follow `next` until
`first` is reached again.  `fuel` bounds the walk, since the JS loop does not
terminate on a corrupted structure. -/
def travAux (st : Nat → EdgeRec) (stop : Nat) : Nat → Nat → List Nat
  | _, 0 => []
  | cur, fuel + 1 =>
      cur :: (if (st cur).next = stop then [] else travAux st stop ((st cur).next) fuel)

/-- The edges of the face in traversal order (the `edges` getter / iterator). -/
def traverseF (s : FaceState) (fuel : Nat) : List Nat :=
  match s.entry with
  | none => []
  | some (f, _) => travAux s.store f f fuel

/-- `size`: edge count via full traversal. -/
def sizeE (s : FaceState) (fuel : Nat) : Nat := (traverseF s fuel).length

/-- Follow `next` from `cur` exactly `n` times. -/
def iterNext (st : Nat → EdgeRec) : Nat → Nat → Nat
  | 0, cur => cur
  | n + 1, cur => iterNext st n ((st cur).next)

/-- The body of the `setArcLength()` loop for one edge `e`:
`if (edge === this.first) edge.arc_length = 0 else
 edge.arc_length = edge.prev.arc_length + edge.prev.length; edge.face = this`. -/
def salStep (len : Shape → ℚ) (first : Nat) (st : Nat → EdgeRec) (e : Nat) : Nat → EdgeRec :=
  let st1 :=
    if e = first then
      upd st e (fun r => { r with arc_length := 0 })
    else
      upd st e (fun r =>
        { r with arc_length := (st (st e).prev).arc_length + len (st (st e).prev).shape })
  upd st1 e (fun r => { r with faceSet := true })

/-- `setArcLength()`: walk the loop once, repairing each edge's `arc_length`
and reasserting its face back-reference. -/
def setArcLengthE (len : Shape → ℚ) (fuel : Nat) (s : FaceState) : FaceState :=
  match s.entry with
  | none => s
  | some (f, _) =>
      { s with store := (travAux s.store f f fuel).foldl (salStep len f) s.store }

/-! ## The circular-loop representation invariant -/

/-- `b` directly follows `a` in the loop: `a.next == b` and `b.prev == a`. -/
def adjS (st : Nat → EdgeRec) (a b : Nat) : Prop :=
  (st a).next = b ∧ (st b).prev = a

instance adjS.instDecidableRel (st : Nat → EdgeRec) : DecidableRel (adjS st) := fun a b =>
  inferInstanceAs (Decidable ((st a).next = b ∧ (st b).prev = a))

/-- Last element of a nonempty id list (`0` for `[]`). -/
def lastE (l : List Nat) : Nat := l.getLast?.getD 0

/-- The face's loop is exactly the id list `l`, read from `first` in `next`
order: `l` is nonempty and duplicate-free, the entry references are its head
and last element, and consecutive elements (cyclically) are linked both ways. -/
def isLoop (s : FaceState) (l : List Nat) : Prop :=
  l ≠ [] ∧ l.Nodup ∧ s.entry = some (l.headI, lastE l) ∧
    List.Chain' (adjS s.store) (l ++ [l.headI])

/-- Executable check of the pairwise adjacency chain. -/
def adjChainB (st : Nat → EdgeRec) : List Nat → Bool
  | [] => true
  | [_] => true
  | a :: b :: t => (decide ((st a).next = b) && decide ((st b).prev = a)) && adjChainB st (b :: t)

theorem adjChainB_iff (st : Nat → EdgeRec) :
    ∀ L : List Nat, adjChainB st L = true ↔ List.Chain' (adjS st) L
  | [] => by simp [adjChainB]
  | [a] => by simp [adjChainB]
  | a :: b :: t => by
    rw [List.chain'_cons, ← adjChainB_iff st (b :: t)]
    simp [adjChainB, adjS, and_assoc]

instance isLoop.instDecidable (s : FaceState) (l : List Nat) : Decidable (isLoop s l) :=
  decidable_of_iff (l ≠ [] ∧ l.Nodup ∧ s.entry = some (l.headI, lastE l) ∧
      adjChainB s.store (l ++ [l.headI]) = true)
    (by rw [adjChainB_iff]; exact Iff.rfl)

theorem lastE_concat (l : List Nat) (a : Nat) : lastE (l ++ [a]) = a := by
  simp [lastE]

theorem lastE_cons_of_ne (a : Nat) {l : List Nat} (h : l ≠ []) :
    lastE (a :: l) = lastE l := by
  cases l with
  | nil => exact absurd rfl h
  | cons b t => simp [lastE]

theorem getLast?_eq_lastE {l : List Nat} (h : l ≠ []) : l.getLast? = some (lastE l) := by
  cases hl : l.getLast? with
  | none => exact absurd (List.getLast?_eq_none_iff.mp hl) h
  | some a => simp [lastE, hl]

theorem lastE_eq_getLast {l : List Nat} (h : l ≠ []) : lastE l = l.getLast h := by
  simp [lastE, List.getLast?_eq_getLast_of_ne_nil h]

theorem lastE_mem {l : List Nat} (h : l ≠ []) : lastE l ∈ l := by
  rw [lastE_eq_getLast h]; exact List.getLast_mem h

theorem headI_mem {l : List Nat} (h : l ≠ []) : l.headI ∈ l := by
  cases l with
  | nil => exact absurd rfl h
  | cons a t => simp

theorem headI_append {l l' : List Nat} (h : l ≠ []) : (l ++ l').headI = l.headI := by
  cases l with
  | nil => exact absurd rfl h
  | cons a t => rfl

/-- Rebuild a `Chain'` of adjacencies after store updates that do not touch the
`next` field of any non-final element nor the `prev` field of any non-initial
element of the chain. -/
theorem chain'_transfer {st st' : Nat → EdgeRec} :
    ∀ {L : List Nat}, List.Chain' (adjS st) L →
      (∀ a ∈ L.dropLast, (st' a).next = (st a).next) →
      (∀ b ∈ L.tail, (st' b).prev = (st b).prev) →
      List.Chain' (adjS st') L
  | [], _, _, _ => List.chain'_nil
  | [_], _, _, _ => List.chain'_singleton _
  | a :: b :: L', h, hn, hp => by
      rw [List.chain'_cons] at h ⊢
      have hdl : (a :: b :: L').dropLast = a :: (b :: L').dropLast := rfl
      refine ⟨⟨?_, ?_⟩, ?_⟩
      · rw [hn a (by rw [hdl]; exact List.mem_cons_self _ _)]; exact h.1.1
      · rw [hp b (List.mem_cons_self _ _)]; exact h.1.2
      · exact chain'_transfer h.2
          (fun x hx => hn x (by rw [hdl]; exact List.mem_cons_of_mem _ hx))
          (fun x hx => hp x (List.mem_cons_of_mem _ hx))

/-- The iterator's walk from just after the head: starting at the head of `ys`
and stopping when `next` hits `stop`, it yields exactly `ys`. -/
theorem travAux_tail {st : Nat → EdgeRec} {stop : Nat} :
    ∀ (ys : List Nat) (fuel : Nat), ys ≠ [] → stop ∉ ys →
      List.Chain' (adjS st) (ys ++ [stop]) → ys.length ≤ fuel →
      travAux st stop ys.headI fuel = ys := by
  intro ys
  induction ys with
  | nil => intro fuel h; exact absurd rfl h
  | cons a t ih =>
    intro fuel _ hstop hch hfuel
    simp only [List.cons_append] at hch
    match fuel, hfuel with
    | m + 1, hf =>
      cases t with
      | nil =>
        have : (st a).next = stop := (List.chain'_cons.mp hch).1.1
        simp [travAux, this]
      | cons b t' =>
        replace hch : List.Chain' (adjS st) (a :: b :: (t' ++ [stop])) := by
          simpa using hch
        rw [List.chain'_cons] at hch
        have hab : (st a).next = b := hch.1.1
        have hbstop : b ≠ stop := by
          intro hb
          exact hstop (hb ▸ List.mem_cons_of_mem _ (List.mem_cons_self _ _))
        have hstep : travAux st stop a (m + 1) = a :: travAux st stop b m := by
          simp only [travAux, hab]
          rw [if_neg hbstop]
        have hlen : (b :: t').length ≤ m := by
          simpa using Nat.succ_le_succ_iff.mp hf
        have := ih m (by simp) (fun hm => hstop (List.mem_cons_of_mem _ hm))
          (by simpa using hch.2) hlen
        simp only [List.headI_cons] at this
        rw [List.headI_cons, hstep, this]

/-- Under the loop invariant (and enough fuel) the iterator yields exactly the
representing list. -/
theorem traverseF_eq {s : FaceState} {l : List Nat} {fuel : Nat}
    (hl : isLoop s l) (hf : l.length ≤ fuel) : traverseF s fuel = l := by
  obtain ⟨hne, hnd, hent, hch⟩ := hl
  cases l with
  | nil => exact absurd rfl hne
  | cons a t =>
    have hunf : traverseF s fuel = travAux s.store a a fuel := by
      unfold traverseF
      rw [hent]
      rfl
    rw [hunf]
    match fuel, hf with
    | m + 1, hf =>
      cases t with
      | nil =>
        have hnext : (s.store a).next = a := by
          have := List.chain'_cons.mp (show List.Chain' (adjS s.store) (a :: [a]) by
            simpa using hch)
          exact this.1.1
        simp [travAux, hnext]
      | cons b t' =>
        replace hch : List.Chain' (adjS s.store) (a :: b :: (t' ++ [a])) := by
          simpa using hch
        rw [List.chain'_cons] at hch
        have hab : (s.store a).next = b := hch.1.1
        have hanb : a ∉ b :: t' := (List.nodup_cons.mp hnd).1
        have hba : b ≠ a := fun hb => hanb (hb ▸ List.mem_cons_self _ _)
        have hstep : travAux s.store a a (m + 1) = a :: travAux s.store a b m := by
          simp only [travAux, hab]
          rw [if_neg hba]
        have htail := @travAux_tail s.store a (b :: t') m (by simp)
          hanb (by simpa using hch.2) (by simpa using Nat.succ_le_succ_iff.mp hf)
        simp only [List.headI_cons] at htail
        rw [hstep, htail]

/-- Walking `next` along the chain lands on the indexed element. -/
theorem iterNext_getD {st : Nat → EdgeRec} {stop : Nat} :
    ∀ (ys : List Nat), List.Chain' (adjS st) (ys ++ [stop]) → ys ≠ [] →
      ∀ k, k ≤ ys.length → iterNext st k ys.headI = (ys ++ [stop]).getD k 0 := by
  intro ys
  induction ys with
  | nil => intro _ h; exact absurd rfl h
  | cons a t ih =>
    intro hch _ k hk
    cases k with
    | zero => simp [iterNext]
    | succ m =>
      cases t with
      | nil =>
        match m, hk with
        | 0, _ =>
          have : (st a).next = stop := by
            have := List.chain'_cons.mp (show List.Chain' (adjS st) (a :: [stop]) by
              simpa using hch)
            exact this.1.1
          simp [iterNext, this]
      | cons b t' =>
        replace hch : List.Chain' (adjS st) (a :: b :: (t' ++ [stop])) := by
          simpa using hch
        rw [List.chain'_cons] at hch
        have hab : (st a).next = b := hch.1.1
        have : iterNext st (m + 1) a = iterNext st m b := by
          simp [iterNext, hab]
        rw [List.headI_cons, this]
        have := ih (by simpa using hch.2) (by simp) m (by simpa using Nat.succ_le_succ_iff.mp hk)
        simp only [List.headI_cons] at this
        rw [this]
        simp

/-- In a loop's entry pair, `first.prev == last` and `last.next == first`. -/
theorem isLoop_wrap {s : FaceState} {l : List Nat} (hl : isLoop s l) :
    (s.store (lastE l)).next = l.headI ∧ (s.store l.headI).prev = lastE l := by
  obtain ⟨hne, _, _, hch⟩ := hl
  have h := (List.chain'_append.mp hch).2.2
  have hx : lastE l ∈ l.getLast? := by
    rw [getLast?_eq_lastE hne]; rfl
  exact h _ hx _ rfl

theorem nodup_headI_ne_lastE {l : List Nat} (hnd : l.Nodup) (h2 : 2 ≤ l.length) :
    l.headI ≠ lastE l := by
  match l, h2 with
  | a :: b :: t, _ =>
    intro he
    rw [lastE_cons_of_ne a (by simp), List.headI_cons] at he
    exact (List.nodup_cons.mp hnd).1 (by rw [he]; exact lastE_mem (by simp))

set_option maxRecDepth 2000 in
/-- `appendE` on a nonempty face: full pointwise description of the result. -/
theorem appendE_spec (len : Shape → ℚ) (s : FaceState) (id f lst : Nat)
    (h : s.entry = some (f, lst)) (hif : id ≠ f) (hil : id ≠ lst) :
    (appendE len s id).entry = some (f, id) ∧
    ((appendE len s id).store id).prev = lst ∧
    ((appendE len s id).store id).next = f ∧
    ((appendE len s id).store f).prev = id ∧
    ((appendE len s id).store lst).next = id ∧
    (∀ j, j ≠ id → j ≠ lst → ((appendE len s id).store j).next = (s.store j).next) ∧
    (∀ j, j ≠ id → j ≠ f → ((appendE len s id).store j).prev = (s.store j).prev) ∧
    (∀ j, ((appendE len s id).store j).shape = (s.store j).shape) ∧
    (∀ j, j ≠ id → ((appendE len s id).store j).arc_length = (s.store j).arc_length) ∧
    ((appendE len s id).store id).arc_length
      = (s.store lst).arc_length + len ((s.store lst).shape) ∧
    ((appendE len s id).store id).faceSet = true ∧
    (∀ j, j ≠ id → ((appendE len s id).store j).faceSet = (s.store j).faceSet) ∧
    (appendE len s id).boxCache = s.boxCache ∧
    (appendE len s id).orientCache = s.orientCache := by
  have hfi : f ≠ id := Ne.symm hif
  have hli : lst ≠ id := Ne.symm hil
  refine ⟨?_, ?_, ?_, ?_, ?_, ?_, ?_, ?_, ?_, ?_, ?_, ?_, ?_, ?_⟩
  · simp [appendE, h]
  · simp [appendE, h, upd, hif, hil, hfi, hli]
  · simp [appendE, h, upd, hif, hil, hfi, hli]
  · by_cases hfl : f = lst
    · subst hfl; simp [appendE, h, upd, hif, hfi]
    · simp [appendE, h, upd, hif, hil, hfi, hli, hfl, Ne.symm hfl]
  · by_cases hfl : f = lst
    · subst hfl; simp [appendE, h, upd, hif, hfi]
    · simp [appendE, h, upd, hif, hil, hfi, hli, hfl, Ne.symm hfl]
  · intro j hj1 hj2
    by_cases hjf : j = f
    · subst hjf; simp [appendE, h, upd, hj1, hj2]
    · simp [appendE, h, upd, hj1, hj2, hjf]
  · intro j hj1 hj2
    by_cases hjl : j = lst
    · subst hjl; simp [appendE, h, upd, hj1, hj2]
    · simp [appendE, h, upd, hj1, hj2, hjl]
  · intro j
    by_cases hj1 : j = id
    · subst hj1
      by_cases hfl : f = lst
      · subst hfl; simp [appendE, h, upd, hif, hfi]
      · simp [appendE, h, upd, hif, hil, hfi, hli, hfl, Ne.symm hfl]
    · by_cases hjf : j = f
      · subst hjf
        by_cases hjl : j = lst
        · subst hjl; simp [appendE, h, upd, hj1, hif, hil, hfi, hli]
        · simp [appendE, h, upd, hj1, hjl, hif, hil, hfi, hli, Ne.symm hjl]
      · by_cases hjl : j = lst
        · subst hjl; simp [appendE, h, upd, hj1, hjf, hif, hil, hfi, hli, Ne.symm hjf]
        · simp [appendE, h, upd, hj1, hjf, hjl]
  · intro j hj
    by_cases hjf : j = f
    · subst hjf
      by_cases hjl : j = lst
      · subst hjl; simp [appendE, h, upd, hj, hif, hil, hfi, hli]
      · simp [appendE, h, upd, hj, hjl, hif, hil, hfi, hli, Ne.symm hjl]
    · by_cases hjl : j = lst
      · subst hjl; simp [appendE, h, upd, hj, hjf, hif, hil, hfi, hli, Ne.symm hjf]
      · simp [appendE, h, upd, hj, hjf, hjl]
  · by_cases hfl : f = lst
    · subst hfl; simp [appendE, h, upd, hif, hfi]
    · simp [appendE, h, upd, hif, hil, hfi, hli, hfl, Ne.symm hfl]
  · simp [appendE, h, upd, hif, hil, hfi, hli]
  · intro j hj
    by_cases hjf : j = f
    · subst hjf
      by_cases hjl : j = lst
      · subst hjl; simp [appendE, h, upd, hj, hif, hil, hfi, hli]
      · simp [appendE, h, upd, hj, hjl, hif, hil, hfi, hli, Ne.symm hjl]
    · by_cases hjl : j = lst
      · subst hjl; simp [appendE, h, upd, hj, hjf, hif, hil, hfi, hli, Ne.symm hjf]
      · simp [appendE, h, upd, hj, hjf, hjl]
  · simp [appendE, h]
  · simp [appendE, h]

theorem nodup_headI_not_mem_tail {l : List Nat} (hnd : l.Nodup) : l.headI ∉ l.tail := by
  cases l with
  | nil => simp
  | cons a t => exact (List.nodup_cons.mp hnd).1

theorem nodup_lastE_not_mem_dropLast {l : List Nat} (hnd : l.Nodup) (hne : l ≠ []) :
    lastE l ∉ l.dropLast := by
  intro hmem
  have hsplit : l.dropLast ++ [l.getLast hne] = l := List.dropLast_append_getLast hne
  rw [lastE_eq_getLast hne] at hmem
  have : (l.dropLast ++ [l.getLast hne]).Nodup := by rw [hsplit]; exact hnd
  have hdisj := List.disjoint_of_nodup_append this
  exact hdisj hmem (by simp)

/-- `append` on an empty face creates a one-edge self-loop with arc length 0
and the face back-reference set. -/
theorem appendE_empty (len : Shape → ℚ) (s : FaceState) (id : Nat) (h : s.entry = none) :
    isLoop (appendE len s id) [id] ∧
    ((appendE len s id).store id).arc_length = 0 ∧
    ((appendE len s id).store id).faceSet = true ∧
    (∀ j, ((appendE len s id).store j).shape = (s.store j).shape) ∧
    (∀ j, j ≠ id → (appendE len s id).store j = s.store j) ∧
    (appendE len s id).boxCache = s.boxCache ∧
    (appendE len s id).orientCache = s.orientCache := by
  refine ⟨⟨by simp, by simp, ?_, ?_⟩, ?_, ?_, ?_, ?_, by simp [appendE, h], by simp [appendE, h]⟩
  · simp [appendE, h, lastE]
  · simp only [appendE, h]
    refine List.chain'_cons.mpr ⟨⟨?_, ?_⟩, List.chain'_singleton _⟩ <;>
      simp [upd]
  · simp [appendE, h, upd]
  · simp [appendE, h, upd]
  · intro j
    by_cases hj : j = id
    · subst hj; simp [appendE, h, upd]
    · simp [appendE, h, upd, hj]
  · intro j hj
    simp [appendE, h, upd, hj]

/-- `append` of a fresh edge onto a face satisfying the loop invariant
extends the representing list at the back. -/
theorem appendE_isLoop {len : Shape → ℚ} {s : FaceState} {l : List Nat} {id : Nat}
    (hl : isLoop s l) (hid : id ∉ l) : isLoop (appendE len s id) (l ++ [id]) := by
  obtain ⟨hne, hnd, hent, hch⟩ := hl
  have hif : id ≠ l.headI := fun he => hid (he ▸ headI_mem hne)
  have hil : id ≠ lastE l := fun he => hid (he ▸ lastE_mem hne)
  obtain ⟨hsent, hprevid, hnextid, hprevf, hnextl, hnfr, hpfr, _, _, _, _, _, _, _⟩ :=
    appendE_spec len s id l.headI (lastE l) hent hif hil
  refine ⟨by simp, ?_, ?_, ?_⟩
  · rw [List.nodup_append]
    refine ⟨hnd, List.nodup_singleton _, ?_⟩
    intro a ha hb
    simp only [List.mem_singleton] at hb
    exact hid (hb ▸ ha)
  · rw [hsent, headI_append hne, lastE_concat]
  · rw [headI_append hne]
    have hassoc : (l ++ [id]) ++ [l.headI] = l ++ [id, l.headI] := by
      rw [List.append_assoc]; rfl
    rw [hassoc]
    refine List.chain'_append.mpr ⟨?_, ?_, ?_⟩
    · refine chain'_transfer (List.chain'_append.mp hch).1 ?_ ?_
      · intro a ha
        exact hnfr a (fun he => hid (he ▸ List.mem_of_mem_dropLast ha))
          (fun he => nodup_lastE_not_mem_dropLast hnd hne (he ▸ ha))
      · intro b hb
        exact hpfr b (fun he => hid (he ▸ List.mem_of_mem_tail hb))
          (fun he => nodup_headI_not_mem_tail hnd (he ▸ hb))
    · exact List.chain'_cons.mpr ⟨⟨hnextid, hprevf⟩, List.chain'_singleton _⟩
    · intro x hx y hy
      rw [getLast?_eq_lastE hne] at hx
      simp only [Option.mem_def, Option.some.injEq, List.head?_cons] at hx hy
      subst hx hy
      exact ⟨hnextl, hprevid⟩

set_option maxRecDepth 4000 in
/-- `insertE` on a nonempty face: full pointwise description of the result.
`(s.store eb).next` is the source's `edgeAfter`. -/
theorem insertE_spec (len : Shape → ℚ) (s : FaceState) (id eb f lst : Nat)
    (h : s.entry = some (f, lst)) (hie : id ≠ eb) (hiea : id ≠ (s.store eb).next) :
    (insertE len s id eb).entry = some ((if lst = eb then id else f), lst) ∧
    ((insertE len s id eb).store eb).next = id ∧
    ((insertE len s id eb).store ((s.store eb).next)).prev = id ∧
    ((insertE len s id eb).store id).prev = eb ∧
    ((insertE len s id eb).store id).next = (s.store eb).next ∧
    (∀ j, j ≠ id → j ≠ eb → ((insertE len s id eb).store j).next = (s.store j).next) ∧
    (∀ j, j ≠ id → j ≠ (s.store eb).next →
      ((insertE len s id eb).store j).prev = (s.store j).prev) ∧
    (∀ j, ((insertE len s id eb).store j).shape = (s.store j).shape) ∧
    (∀ j, j ≠ id → ((insertE len s id eb).store j).arc_length = (s.store j).arc_length) ∧
    ((insertE len s id eb).store id).arc_length
      = (if eb = lst then 0
         else (s.store eb).arc_length + len ((s.store eb).shape)) ∧
    ((insertE len s id eb).store id).faceSet = true ∧
    (∀ j, j ≠ id → ((insertE len s id eb).store j).faceSet = (s.store j).faceSet) ∧
    (insertE len s id eb).boxCache = s.boxCache ∧
    (insertE len s id eb).orientCache = s.orientCache := by
  have hei : eb ≠ id := Ne.symm hie
  have heai : (s.store eb).next ≠ id := Ne.symm hiea
  refine ⟨?_, ?_, ?_, ?_, ?_, ?_, ?_, ?_, ?_, ?_, ?_, ?_, ?_, ?_⟩
  · simp [insertE, h]
  · rcases eq_or_ne eb ((s.store eb).next) with hea | hea
    · rcases eq_or_ne eb lst with heb | heb
      · simp [insertE, h, upd, iff_false_intro hie, iff_false_intro hei, iff_false_intro hiea, iff_false_intro heai, iff_true_intro hea, iff_true_intro (hea).symm, iff_true_intro heb, iff_true_intro (heb).symm]
      · simp [insertE, h, upd, iff_false_intro hie, iff_false_intro hei, iff_false_intro hiea, iff_false_intro heai, iff_true_intro hea, iff_true_intro (hea).symm, iff_false_intro heb, iff_false_intro (Ne.symm heb)]
    · rcases eq_or_ne eb lst with heb | heb
      · simp [insertE, h, upd, iff_false_intro hie, iff_false_intro hei, iff_false_intro hiea, iff_false_intro heai, iff_false_intro hea, iff_false_intro (Ne.symm hea), iff_true_intro heb, iff_true_intro (heb).symm]
      · simp [insertE, h, upd, iff_false_intro hie, iff_false_intro hei, iff_false_intro hiea, iff_false_intro heai, iff_false_intro hea, iff_false_intro (Ne.symm hea), iff_false_intro heb, iff_false_intro (Ne.symm heb)]
  · rcases eq_or_ne ((s.store eb).next) eb with hea | hea
    · rcases eq_or_ne eb lst with heb | heb
      · simp [insertE, h, upd, iff_false_intro hie, iff_false_intro hei, iff_false_intro hiea, iff_false_intro heai, iff_true_intro hea, iff_true_intro (hea).symm, iff_true_intro heb, iff_true_intro (heb).symm]
      · simp [insertE, h, upd, iff_false_intro hie, iff_false_intro hei, iff_false_intro hiea, iff_false_intro heai, iff_true_intro hea, iff_true_intro (hea).symm, iff_false_intro heb, iff_false_intro (Ne.symm heb)]
    · rcases eq_or_ne eb lst with heb | heb
      · simp [insertE, h, upd, iff_false_intro hie, iff_false_intro hei, iff_false_intro hiea, iff_false_intro heai, iff_false_intro hea, iff_false_intro (Ne.symm hea), iff_true_intro heb, iff_true_intro (heb).symm]
      · simp [insertE, h, upd, iff_false_intro hie, iff_false_intro hei, iff_false_intro hiea, iff_false_intro heai, iff_false_intro hea, iff_false_intro (Ne.symm hea), iff_false_intro heb, iff_false_intro (Ne.symm heb)]
  · rcases eq_or_ne eb lst with heb | heb
    · simp [insertE, h, upd, iff_false_intro hie, iff_false_intro hei, iff_false_intro hiea, iff_false_intro heai, iff_true_intro heb, iff_true_intro (heb).symm]
    · simp [insertE, h, upd, iff_false_intro hie, iff_false_intro hei, iff_false_intro hiea, iff_false_intro heai, iff_false_intro heb, iff_false_intro (Ne.symm heb)]
  · rcases eq_or_ne eb lst with heb | heb
    · simp [insertE, h, upd, iff_false_intro hie, iff_false_intro hei, iff_false_intro hiea, iff_false_intro heai, iff_true_intro heb, iff_true_intro (heb).symm]
    · simp [insertE, h, upd, iff_false_intro hie, iff_false_intro hei, iff_false_intro hiea, iff_false_intro heai, iff_false_intro heb, iff_false_intro (Ne.symm heb)]
  · intro j hj1 hj2
    rcases eq_or_ne j ((s.store eb).next) with hj3 | hj3
    · rcases eq_or_ne eb ((s.store eb).next) with hea | hea
      · rcases eq_or_ne eb lst with heb | heb
        · simp [insertE, h, upd, iff_false_intro hie, iff_false_intro hei, iff_false_intro hiea, iff_false_intro heai, iff_false_intro hj1, iff_false_intro hj2, iff_true_intro hj3, iff_true_intro (hj3).symm, iff_true_intro hea, iff_true_intro (hea).symm, iff_true_intro heb, iff_true_intro (heb).symm]
        · simp [insertE, h, upd, iff_false_intro hie, iff_false_intro hei, iff_false_intro hiea, iff_false_intro heai, iff_false_intro hj1, iff_false_intro hj2, iff_true_intro hj3, iff_true_intro (hj3).symm, iff_true_intro hea, iff_true_intro (hea).symm, iff_false_intro heb, iff_false_intro (Ne.symm heb)]
      · rcases eq_or_ne eb lst with heb | heb
        · simp [insertE, h, upd, iff_false_intro hie, iff_false_intro hei, iff_false_intro hiea, iff_false_intro heai, iff_false_intro hj1, iff_false_intro hj2, iff_true_intro hj3, iff_true_intro (hj3).symm, iff_false_intro hea, iff_false_intro (Ne.symm hea), iff_true_intro heb, iff_true_intro (heb).symm]
        · simp [insertE, h, upd, iff_false_intro hie, iff_false_intro hei, iff_false_intro hiea, iff_false_intro heai, iff_false_intro hj1, iff_false_intro hj2, iff_true_intro hj3, iff_true_intro (hj3).symm, iff_false_intro hea, iff_false_intro (Ne.symm hea), iff_false_intro heb, iff_false_intro (Ne.symm heb)]
    · rcases eq_or_ne eb ((s.store eb).next) with hea | hea
      · rcases eq_or_ne eb lst with heb | heb
        · simp [insertE, h, upd, iff_false_intro hie, iff_false_intro hei, iff_false_intro hiea, iff_false_intro heai, iff_false_intro hj1, iff_false_intro hj2, iff_false_intro hj3, iff_false_intro (Ne.symm hj3), iff_true_intro hea, iff_true_intro (hea).symm, iff_true_intro heb, iff_true_intro (heb).symm]
        · simp [insertE, h, upd, iff_false_intro hie, iff_false_intro hei, iff_false_intro hiea, iff_false_intro heai, iff_false_intro hj1, iff_false_intro hj2, iff_false_intro hj3, iff_false_intro (Ne.symm hj3), iff_true_intro hea, iff_true_intro (hea).symm, iff_false_intro heb, iff_false_intro (Ne.symm heb)]
      · rcases eq_or_ne eb lst with heb | heb
        · simp [insertE, h, upd, iff_false_intro hie, iff_false_intro hei, iff_false_intro hiea, iff_false_intro heai, iff_false_intro hj1, iff_false_intro hj2, iff_false_intro hj3, iff_false_intro (Ne.symm hj3), iff_false_intro hea, iff_false_intro (Ne.symm hea), iff_true_intro heb, iff_true_intro (heb).symm]
        · simp [insertE, h, upd, iff_false_intro hie, iff_false_intro hei, iff_false_intro hiea, iff_false_intro heai, iff_false_intro hj1, iff_false_intro hj2, iff_false_intro hj3, iff_false_intro (Ne.symm hj3), iff_false_intro hea, iff_false_intro (Ne.symm hea), iff_false_intro heb, iff_false_intro (Ne.symm heb)]
  · intro j hj1 hj2
    rcases eq_or_ne j eb with hj3 | hj3
    · rcases eq_or_ne eb ((s.store eb).next) with hea | hea
      · rcases eq_or_ne eb lst with heb | heb
        · simp [insertE, h, upd, iff_false_intro hie, iff_false_intro hei, iff_false_intro hiea, iff_false_intro heai, iff_false_intro hj1, iff_false_intro hj2, iff_true_intro hj3, iff_true_intro (hj3).symm, iff_true_intro hea, iff_true_intro (hea).symm, iff_true_intro heb, iff_true_intro (heb).symm]
        · simp [insertE, h, upd, iff_false_intro hie, iff_false_intro hei, iff_false_intro hiea, iff_false_intro heai, iff_false_intro hj1, iff_false_intro hj2, iff_true_intro hj3, iff_true_intro (hj3).symm, iff_true_intro hea, iff_true_intro (hea).symm, iff_false_intro heb, iff_false_intro (Ne.symm heb)]
      · rcases eq_or_ne eb lst with heb | heb
        · simp [insertE, h, upd, iff_false_intro hie, iff_false_intro hei, iff_false_intro hiea, iff_false_intro heai, iff_false_intro hj1, iff_false_intro hj2, iff_true_intro hj3, iff_true_intro (hj3).symm, iff_false_intro hea, iff_false_intro (Ne.symm hea), iff_true_intro heb, iff_true_intro (heb).symm]
        · simp [insertE, h, upd, iff_false_intro hie, iff_false_intro hei, iff_false_intro hiea, iff_false_intro heai, iff_false_intro hj1, iff_false_intro hj2, iff_true_intro hj3, iff_true_intro (hj3).symm, iff_false_intro hea, iff_false_intro (Ne.symm hea), iff_false_intro heb, iff_false_intro (Ne.symm heb)]
    · rcases eq_or_ne eb ((s.store eb).next) with hea | hea
      · rcases eq_or_ne eb lst with heb | heb
        · simp [insertE, h, upd, iff_false_intro hie, iff_false_intro hei, iff_false_intro hiea, iff_false_intro heai, iff_false_intro hj1, iff_false_intro hj2, iff_false_intro hj3, iff_false_intro (Ne.symm hj3), iff_true_intro hea, iff_true_intro (hea).symm, iff_true_intro heb, iff_true_intro (heb).symm]
        · simp [insertE, h, upd, iff_false_intro hie, iff_false_intro hei, iff_false_intro hiea, iff_false_intro heai, iff_false_intro hj1, iff_false_intro hj2, iff_false_intro hj3, iff_false_intro (Ne.symm hj3), iff_true_intro hea, iff_true_intro (hea).symm, iff_false_intro heb, iff_false_intro (Ne.symm heb)]
      · rcases eq_or_ne eb lst with heb | heb
        · simp [insertE, h, upd, iff_false_intro hie, iff_false_intro hei, iff_false_intro hiea, iff_false_intro heai, iff_false_intro hj1, iff_false_intro hj2, iff_false_intro hj3, iff_false_intro (Ne.symm hj3), iff_false_intro hea, iff_false_intro (Ne.symm hea), iff_true_intro heb, iff_true_intro (heb).symm]
        · simp [insertE, h, upd, iff_false_intro hie, iff_false_intro hei, iff_false_intro hiea, iff_false_intro heai, iff_false_intro hj1, iff_false_intro hj2, iff_false_intro hj3, iff_false_intro (Ne.symm hj3), iff_false_intro hea, iff_false_intro (Ne.symm hea), iff_false_intro heb, iff_false_intro (Ne.symm heb)]
  · intro j
    rcases eq_or_ne j id with hj1 | hj1
    · rcases eq_or_ne j eb with hj2 | hj2
      · rcases eq_or_ne j ((s.store eb).next) with hj3 | hj3
        · rcases eq_or_ne eb ((s.store eb).next) with hea | hea
          · rcases eq_or_ne eb lst with heb | heb
            · simp [insertE, h, upd, iff_false_intro hie, iff_false_intro hei, iff_false_intro hiea, iff_false_intro heai, iff_true_intro hj1, iff_true_intro (hj1).symm, iff_true_intro hj2, iff_true_intro (hj2).symm, iff_true_intro hj3, iff_true_intro (hj3).symm, iff_true_intro hea, iff_true_intro (hea).symm, iff_true_intro heb, iff_true_intro (heb).symm]
            · simp [insertE, h, upd, iff_false_intro hie, iff_false_intro hei, iff_false_intro hiea, iff_false_intro heai, iff_true_intro hj1, iff_true_intro (hj1).symm, iff_true_intro hj2, iff_true_intro (hj2).symm, iff_true_intro hj3, iff_true_intro (hj3).symm, iff_true_intro hea, iff_true_intro (hea).symm, iff_false_intro heb, iff_false_intro (Ne.symm heb)]
          · rcases eq_or_ne eb lst with heb | heb
            · simp [insertE, h, upd, iff_false_intro hie, iff_false_intro hei, iff_false_intro hiea, iff_false_intro heai, iff_true_intro hj1, iff_true_intro (hj1).symm, iff_true_intro hj2, iff_true_intro (hj2).symm, iff_true_intro hj3, iff_true_intro (hj3).symm, iff_false_intro hea, iff_false_intro (Ne.symm hea), iff_true_intro heb, iff_true_intro (heb).symm]
            · simp [insertE, h, upd, iff_false_intro hie, iff_false_intro hei, iff_false_intro hiea, iff_false_intro heai, iff_true_intro hj1, iff_true_intro (hj1).symm, iff_true_intro hj2, iff_true_intro (hj2).symm, iff_true_intro hj3, iff_true_intro (hj3).symm, iff_false_intro hea, iff_false_intro (Ne.symm hea), iff_false_intro heb, iff_false_intro (Ne.symm heb)]
        · rcases eq_or_ne eb ((s.store eb).next) with hea | hea
          · rcases eq_or_ne eb lst with heb | heb
            · simp [insertE, h, upd, iff_false_intro hie, iff_false_intro hei, iff_false_intro hiea, iff_false_intro heai, iff_true_intro hj1, iff_true_intro (hj1).symm, iff_true_intro hj2, iff_true_intro (hj2).symm, iff_false_intro hj3, iff_false_intro (Ne.symm hj3), iff_true_intro hea, iff_true_intro (hea).symm, iff_true_intro heb, iff_true_intro (heb).symm]
            · simp [insertE, h, upd, iff_false_intro hie, iff_false_intro hei, iff_false_intro hiea, iff_false_intro heai, iff_true_intro hj1, iff_true_intro (hj1).symm, iff_true_intro hj2, iff_true_intro (hj2).symm, iff_false_intro hj3, iff_false_intro (Ne.symm hj3), iff_true_intro hea, iff_true_intro (hea).symm, iff_false_intro heb, iff_false_intro (Ne.symm heb)]
          · rcases eq_or_ne eb lst with heb | heb
            · simp [insertE, h, upd, iff_false_intro hie, iff_false_intro hei, iff_false_intro hiea, iff_false_intro heai, iff_true_intro hj1, iff_true_intro (hj1).symm, iff_true_intro hj2, iff_true_intro (hj2).symm, iff_false_intro hj3, iff_false_intro (Ne.symm hj3), iff_false_intro hea, iff_false_intro (Ne.symm hea), iff_true_intro heb, iff_true_intro (heb).symm]
            · simp [insertE, h, upd, iff_false_intro hie, iff_false_intro hei, iff_false_intro hiea, iff_false_intro heai, iff_true_intro hj1, iff_true_intro (hj1).symm, iff_true_intro hj2, iff_true_intro (hj2).symm, iff_false_intro hj3, iff_false_intro (Ne.symm hj3), iff_false_intro hea, iff_false_intro (Ne.symm hea), iff_false_intro heb, iff_false_intro (Ne.symm heb)]
      · rcases eq_or_ne j ((s.store eb).next) with hj3 | hj3
        · rcases eq_or_ne eb ((s.store eb).next) with hea | hea
          · rcases eq_or_ne eb lst with heb | heb
            · simp [insertE, h, upd, iff_false_intro hie, iff_false_intro hei, iff_false_intro hiea, iff_false_intro heai, iff_true_intro hj1, iff_true_intro (hj1).symm, iff_false_intro hj2, iff_false_intro (Ne.symm hj2), iff_true_intro hj3, iff_true_intro (hj3).symm, iff_true_intro hea, iff_true_intro (hea).symm, iff_true_intro heb, iff_true_intro (heb).symm]
            · simp [insertE, h, upd, iff_false_intro hie, iff_false_intro hei, iff_false_intro hiea, iff_false_intro heai, iff_true_intro hj1, iff_true_intro (hj1).symm, iff_false_intro hj2, iff_false_intro (Ne.symm hj2), iff_true_intro hj3, iff_true_intro (hj3).symm, iff_true_intro hea, iff_true_intro (hea).symm, iff_false_intro heb, iff_false_intro (Ne.symm heb)]
          · rcases eq_or_ne eb lst with heb | heb
            · simp [insertE, h, upd, iff_false_intro hie, iff_false_intro hei, iff_false_intro hiea, iff_false_intro heai, iff_true_intro hj1, iff_true_intro (hj1).symm, iff_false_intro hj2, iff_false_intro (Ne.symm hj2), iff_true_intro hj3, iff_true_intro (hj3).symm, iff_false_intro hea, iff_false_intro (Ne.symm hea), iff_true_intro heb, iff_true_intro (heb).symm]
            · simp [insertE, h, upd, iff_false_intro hie, iff_false_intro hei, iff_false_intro hiea, iff_false_intro heai, iff_true_intro hj1, iff_true_intro (hj1).symm, iff_false_intro hj2, iff_false_intro (Ne.symm hj2), iff_true_intro hj3, iff_true_intro (hj3).symm, iff_false_intro hea, iff_false_intro (Ne.symm hea), iff_false_intro heb, iff_false_intro (Ne.symm heb)]
        · rcases eq_or_ne eb ((s.store eb).next) with hea | hea
          · rcases eq_or_ne eb lst with heb | heb
            · simp [insertE, h, upd, iff_false_intro hie, iff_false_intro hei, iff_false_intro hiea, iff_false_intro heai, iff_true_intro hj1, iff_true_intro (hj1).symm, iff_false_intro hj2, iff_false_intro (Ne.symm hj2), iff_false_intro hj3, iff_false_intro (Ne.symm hj3), iff_true_intro hea, iff_true_intro (hea).symm, iff_true_intro heb, iff_true_intro (heb).symm]
            · simp [insertE, h, upd, iff_false_intro hie, iff_false_intro hei, iff_false_intro hiea, iff_false_intro heai, iff_true_intro hj1, iff_true_intro (hj1).symm, iff_false_intro hj2, iff_false_intro (Ne.symm hj2), iff_false_intro hj3, iff_false_intro (Ne.symm hj3), iff_true_intro hea, iff_true_intro (hea).symm, iff_false_intro heb, iff_false_intro (Ne.symm heb)]
          · rcases eq_or_ne eb lst with heb | heb
            · simp [insertE, h, upd, iff_false_intro hie, iff_false_intro hei, iff_false_intro hiea, iff_false_intro heai, iff_true_intro hj1, iff_true_intro (hj1).symm, iff_false_intro hj2, iff_false_intro (Ne.symm hj2), iff_false_intro hj3, iff_false_intro (Ne.symm hj3), iff_false_intro hea, iff_false_intro (Ne.symm hea), iff_true_intro heb, iff_true_intro (heb).symm]
            · simp [insertE, h, upd, iff_false_intro hie, iff_false_intro hei, iff_false_intro hiea, iff_false_intro heai, iff_true_intro hj1, iff_true_intro (hj1).symm, iff_false_intro hj2, iff_false_intro (Ne.symm hj2), iff_false_intro hj3, iff_false_intro (Ne.symm hj3), iff_false_intro hea, iff_false_intro (Ne.symm hea), iff_false_intro heb, iff_false_intro (Ne.symm heb)]
    · rcases eq_or_ne j eb with hj2 | hj2
      · rcases eq_or_ne j ((s.store eb).next) with hj3 | hj3
        · rcases eq_or_ne eb ((s.store eb).next) with hea | hea
          · rcases eq_or_ne eb lst with heb | heb
            · simp [insertE, h, upd, iff_false_intro hie, iff_false_intro hei, iff_false_intro hiea, iff_false_intro heai, iff_false_intro hj1, iff_false_intro (Ne.symm hj1), iff_true_intro hj2, iff_true_intro (hj2).symm, iff_true_intro hj3, iff_true_intro (hj3).symm, iff_true_intro hea, iff_true_intro (hea).symm, iff_true_intro heb, iff_true_intro (heb).symm]
            · simp [insertE, h, upd, iff_false_intro hie, iff_false_intro hei, iff_false_intro hiea, iff_false_intro heai, iff_false_intro hj1, iff_false_intro (Ne.symm hj1), iff_true_intro hj2, iff_true_intro (hj2).symm, iff_true_intro hj3, iff_true_intro (hj3).symm, iff_true_intro hea, iff_true_intro (hea).symm, iff_false_intro heb, iff_false_intro (Ne.symm heb)]
          · rcases eq_or_ne eb lst with heb | heb
            · simp [insertE, h, upd, iff_false_intro hie, iff_false_intro hei, iff_false_intro hiea, iff_false_intro heai, iff_false_intro hj1, iff_false_intro (Ne.symm hj1), iff_true_intro hj2, iff_true_intro (hj2).symm, iff_true_intro hj3, iff_true_intro (hj3).symm, iff_false_intro hea, iff_false_intro (Ne.symm hea), iff_true_intro heb, iff_true_intro (heb).symm]
            · simp [insertE, h, upd, iff_false_intro hie, iff_false_intro hei, iff_false_intro hiea, iff_false_intro heai, iff_false_intro hj1, iff_false_intro (Ne.symm hj1), iff_true_intro hj2, iff_true_intro (hj2).symm, iff_true_intro hj3, iff_true_intro (hj3).symm, iff_false_intro hea, iff_false_intro (Ne.symm hea), iff_false_intro heb, iff_false_intro (Ne.symm heb)]
        · rcases eq_or_ne eb ((s.store eb).next) with hea | hea
          · rcases eq_or_ne eb lst with heb | heb
            · simp [insertE, h, upd, iff_false_intro hie, iff_false_intro hei, iff_false_intro hiea, iff_false_intro heai, iff_false_intro hj1, iff_false_intro (Ne.symm hj1), iff_true_intro hj2, iff_true_intro (hj2).symm, iff_false_intro hj3, iff_false_intro (Ne.symm hj3), iff_true_intro hea, iff_true_intro (hea).symm, iff_true_intro heb, iff_true_intro (heb).symm]
            · simp [insertE, h, upd, iff_false_intro hie, iff_false_intro hei, iff_false_intro hiea, iff_false_intro heai, iff_false_intro hj1, iff_false_intro (Ne.symm hj1), iff_true_intro hj2, iff_true_intro (hj2).symm, iff_false_intro hj3, iff_false_intro (Ne.symm hj3), iff_true_intro hea, iff_true_intro (hea).symm, iff_false_intro heb, iff_false_intro (Ne.symm heb)]
          · rcases eq_or_ne eb lst with heb | heb
            · simp [insertE, h, upd, iff_false_intro hie, iff_false_intro hei, iff_false_intro hiea, iff_false_intro heai, iff_false_intro hj1, iff_false_intro (Ne.symm hj1), iff_true_intro hj2, iff_true_intro (hj2).symm, iff_false_intro hj3, iff_false_intro (Ne.symm hj3), iff_false_intro hea, iff_false_intro (Ne.symm hea), iff_true_intro heb, iff_true_intro (heb).symm]
            · simp [insertE, h, upd, iff_false_intro hie, iff_false_intro hei, iff_false_intro hiea, iff_false_intro heai, iff_false_intro hj1, iff_false_intro (Ne.symm hj1), iff_true_intro hj2, iff_true_intro (hj2).symm, iff_false_intro hj3, iff_false_intro (Ne.symm hj3), iff_false_intro hea, iff_false_intro (Ne.symm hea), iff_false_intro heb, iff_false_intro (Ne.symm heb)]
      · rcases eq_or_ne j ((s.store eb).next) with hj3 | hj3
        · rcases eq_or_ne eb ((s.store eb).next) with hea | hea
          · rcases eq_or_ne eb lst with heb | heb
            · simp [insertE, h, upd, iff_false_intro hie, iff_false_intro hei, iff_false_intro hiea, iff_false_intro heai, iff_false_intro hj1, iff_false_intro (Ne.symm hj1), iff_false_intro hj2, iff_false_intro (Ne.symm hj2), iff_true_intro hj3, iff_true_intro (hj3).symm, iff_true_intro hea, iff_true_intro (hea).symm, iff_true_intro heb, iff_true_intro (heb).symm]
            · simp [insertE, h, upd, iff_false_intro hie, iff_false_intro hei, iff_false_intro hiea, iff_false_intro heai, iff_false_intro hj1, iff_false_intro (Ne.symm hj1), iff_false_intro hj2, iff_false_intro (Ne.symm hj2), iff_true_intro hj3, iff_true_intro (hj3).symm, iff_true_intro hea, iff_true_intro (hea).symm, iff_false_intro heb, iff_false_intro (Ne.symm heb)]
          · rcases eq_or_ne eb lst with heb | heb
            · simp [insertE, h, upd, iff_false_intro hie, iff_false_intro hei, iff_false_intro hiea, iff_false_intro heai, iff_false_intro hj1, iff_false_intro (Ne.symm hj1), iff_false_intro hj2, iff_false_intro (Ne.symm hj2), iff_true_intro hj3, iff_true_intro (hj3).symm, iff_false_intro hea, iff_false_intro (Ne.symm hea), iff_true_intro heb, iff_true_intro (heb).symm]
            · simp [insertE, h, upd, iff_false_intro hie, iff_false_intro hei, iff_false_intro hiea, iff_false_intro heai, iff_false_intro hj1, iff_false_intro (Ne.symm hj1), iff_false_intro hj2, iff_false_intro (Ne.symm hj2), iff_true_intro hj3, iff_true_intro (hj3).symm, iff_false_intro hea, iff_false_intro (Ne.symm hea), iff_false_intro heb, iff_false_intro (Ne.symm heb)]
        · rcases eq_or_ne eb ((s.store eb).next) with hea | hea
          · rcases eq_or_ne eb lst with heb | heb
            · simp [insertE, h, upd, iff_false_intro hie, iff_false_intro hei, iff_false_intro hiea, iff_false_intro heai, iff_false_intro hj1, iff_false_intro (Ne.symm hj1), iff_false_intro hj2, iff_false_intro (Ne.symm hj2), iff_false_intro hj3, iff_false_intro (Ne.symm hj3), iff_true_intro hea, iff_true_intro (hea).symm, iff_true_intro heb, iff_true_intro (heb).symm]
            · simp [insertE, h, upd, iff_false_intro hie, iff_false_intro hei, iff_false_intro hiea, iff_false_intro heai, iff_false_intro hj1, iff_false_intro (Ne.symm hj1), iff_false_intro hj2, iff_false_intro (Ne.symm hj2), iff_false_intro hj3, iff_false_intro (Ne.symm hj3), iff_true_intro hea, iff_true_intro (hea).symm, iff_false_intro heb, iff_false_intro (Ne.symm heb)]
          · rcases eq_or_ne eb lst with heb | heb
            · simp [insertE, h, upd, iff_false_intro hie, iff_false_intro hei, iff_false_intro hiea, iff_false_intro heai, iff_false_intro hj1, iff_false_intro (Ne.symm hj1), iff_false_intro hj2, iff_false_intro (Ne.symm hj2), iff_false_intro hj3, iff_false_intro (Ne.symm hj3), iff_false_intro hea, iff_false_intro (Ne.symm hea), iff_true_intro heb, iff_true_intro (heb).symm]
            · simp [insertE, h, upd, iff_false_intro hie, iff_false_intro hei, iff_false_intro hiea, iff_false_intro heai, iff_false_intro hj1, iff_false_intro (Ne.symm hj1), iff_false_intro hj2, iff_false_intro (Ne.symm hj2), iff_false_intro hj3, iff_false_intro (Ne.symm hj3), iff_false_intro hea, iff_false_intro (Ne.symm hea), iff_false_intro heb, iff_false_intro (Ne.symm heb)]
  · intro j hj
    rcases eq_or_ne j eb with hj2 | hj2
    · rcases eq_or_ne j ((s.store eb).next) with hj3 | hj3
      · rcases eq_or_ne eb ((s.store eb).next) with hea | hea
        · rcases eq_or_ne eb lst with heb | heb
          · simp [insertE, h, upd, iff_false_intro hie, iff_false_intro hei, iff_false_intro hiea, iff_false_intro heai, iff_false_intro hj, iff_true_intro hj2, iff_true_intro (hj2).symm, iff_true_intro hj3, iff_true_intro (hj3).symm, iff_true_intro hea, iff_true_intro (hea).symm, iff_true_intro heb, iff_true_intro (heb).symm]
          · simp [insertE, h, upd, iff_false_intro hie, iff_false_intro hei, iff_false_intro hiea, iff_false_intro heai, iff_false_intro hj, iff_true_intro hj2, iff_true_intro (hj2).symm, iff_true_intro hj3, iff_true_intro (hj3).symm, iff_true_intro hea, iff_true_intro (hea).symm, iff_false_intro heb, iff_false_intro (Ne.symm heb)]
        · rcases eq_or_ne eb lst with heb | heb
          · simp [insertE, h, upd, iff_false_intro hie, iff_false_intro hei, iff_false_intro hiea, iff_false_intro heai, iff_false_intro hj, iff_true_intro hj2, iff_true_intro (hj2).symm, iff_true_intro hj3, iff_true_intro (hj3).symm, iff_false_intro hea, iff_false_intro (Ne.symm hea), iff_true_intro heb, iff_true_intro (heb).symm]
          · simp [insertE, h, upd, iff_false_intro hie, iff_false_intro hei, iff_false_intro hiea, iff_false_intro heai, iff_false_intro hj, iff_true_intro hj2, iff_true_intro (hj2).symm, iff_true_intro hj3, iff_true_intro (hj3).symm, iff_false_intro hea, iff_false_intro (Ne.symm hea), iff_false_intro heb, iff_false_intro (Ne.symm heb)]
      · rcases eq_or_ne eb ((s.store eb).next) with hea | hea
        · rcases eq_or_ne eb lst with heb | heb
          · simp [insertE, h, upd, iff_false_intro hie, iff_false_intro hei, iff_false_intro hiea, iff_false_intro heai, iff_false_intro hj, iff_true_intro hj2, iff_true_intro (hj2).symm, iff_false_intro hj3, iff_false_intro (Ne.symm hj3), iff_true_intro hea, iff_true_intro (hea).symm, iff_true_intro heb, iff_true_intro (heb).symm]
          · simp [insertE, h, upd, iff_false_intro hie, iff_false_intro hei, iff_false_intro hiea, iff_false_intro heai, iff_false_intro hj, iff_true_intro hj2, iff_true_intro (hj2).symm, iff_false_intro hj3, iff_false_intro (Ne.symm hj3), iff_true_intro hea, iff_true_intro (hea).symm, iff_false_intro heb, iff_false_intro (Ne.symm heb)]
        · rcases eq_or_ne eb lst with heb | heb
          · simp [insertE, h, upd, iff_false_intro hie, iff_false_intro hei, iff_false_intro hiea, iff_false_intro heai, iff_false_intro hj, iff_true_intro hj2, iff_true_intro (hj2).symm, iff_false_intro hj3, iff_false_intro (Ne.symm hj3), iff_false_intro hea, iff_false_intro (Ne.symm hea), iff_true_intro heb, iff_true_intro (heb).symm]
          · simp [insertE, h, upd, iff_false_intro hie, iff_false_intro hei, iff_false_intro hiea, iff_false_intro heai, iff_false_intro hj, iff_true_intro hj2, iff_true_intro (hj2).symm, iff_false_intro hj3, iff_false_intro (Ne.symm hj3), iff_false_intro hea, iff_false_intro (Ne.symm hea), iff_false_intro heb, iff_false_intro (Ne.symm heb)]
    · rcases eq_or_ne j ((s.store eb).next) with hj3 | hj3
      · rcases eq_or_ne eb ((s.store eb).next) with hea | hea
        · rcases eq_or_ne eb lst with heb | heb
          · simp [insertE, h, upd, iff_false_intro hie, iff_false_intro hei, iff_false_intro hiea, iff_false_intro heai, iff_false_intro hj, iff_false_intro hj2, iff_false_intro (Ne.symm hj2), iff_true_intro hj3, iff_true_intro (hj3).symm, iff_true_intro hea, iff_true_intro (hea).symm, iff_true_intro heb, iff_true_intro (heb).symm]
          · simp [insertE, h, upd, iff_false_intro hie, iff_false_intro hei, iff_false_intro hiea, iff_false_intro heai, iff_false_intro hj, iff_false_intro hj2, iff_false_intro (Ne.symm hj2), iff_true_intro hj3, iff_true_intro (hj3).symm, iff_true_intro hea, iff_true_intro (hea).symm, iff_false_intro heb, iff_false_intro (Ne.symm heb)]
        · rcases eq_or_ne eb lst with heb | heb
          · simp [insertE, h, upd, iff_false_intro hie, iff_false_intro hei, iff_false_intro hiea, iff_false_intro heai, iff_false_intro hj, iff_false_intro hj2, iff_false_intro (Ne.symm hj2), iff_true_intro hj3, iff_true_intro (hj3).symm, iff_false_intro hea, iff_false_intro (Ne.symm hea), iff_true_intro heb, iff_true_intro (heb).symm]
          · simp [insertE, h, upd, iff_false_intro hie, iff_false_intro hei, iff_false_intro hiea, iff_false_intro heai, iff_false_intro hj, iff_false_intro hj2, iff_false_intro (Ne.symm hj2), iff_true_intro hj3, iff_true_intro (hj3).symm, iff_false_intro hea, iff_false_intro (Ne.symm hea), iff_false_intro heb, iff_false_intro (Ne.symm heb)]
      · rcases eq_or_ne eb ((s.store eb).next) with hea | hea
        · rcases eq_or_ne eb lst with heb | heb
          · simp [insertE, h, upd, iff_false_intro hie, iff_false_intro hei, iff_false_intro hiea, iff_false_intro heai, iff_false_intro hj, iff_false_intro hj2, iff_false_intro (Ne.symm hj2), iff_false_intro hj3, iff_false_intro (Ne.symm hj3), iff_true_intro hea, iff_true_intro (hea).symm, iff_true_intro heb, iff_true_intro (heb).symm]
          · simp [insertE, h, upd, iff_false_intro hie, iff_false_intro hei, iff_false_intro hiea, iff_false_intro heai, iff_false_intro hj, iff_false_intro hj2, iff_false_intro (Ne.symm hj2), iff_false_intro hj3, iff_false_intro (Ne.symm hj3), iff_true_intro hea, iff_true_intro (hea).symm, iff_false_intro heb, iff_false_intro (Ne.symm heb)]
        · rcases eq_or_ne eb lst with heb | heb
          · simp [insertE, h, upd, iff_false_intro hie, iff_false_intro hei, iff_false_intro hiea, iff_false_intro heai, iff_false_intro hj, iff_false_intro hj2, iff_false_intro (Ne.symm hj2), iff_false_intro hj3, iff_false_intro (Ne.symm hj3), iff_false_intro hea, iff_false_intro (Ne.symm hea), iff_true_intro heb, iff_true_intro (heb).symm]
          · simp [insertE, h, upd, iff_false_intro hie, iff_false_intro hei, iff_false_intro hiea, iff_false_intro heai, iff_false_intro hj, iff_false_intro hj2, iff_false_intro (Ne.symm hj2), iff_false_intro hj3, iff_false_intro (Ne.symm hj3), iff_false_intro hea, iff_false_intro (Ne.symm hea), iff_false_intro heb, iff_false_intro (Ne.symm heb)]
  · rcases eq_or_ne eb ((s.store eb).next) with hea | hea
    · rcases eq_or_ne eb lst with heb | heb
      · simp [insertE, h, upd, iff_false_intro hie, iff_false_intro hei, iff_false_intro hiea, iff_false_intro heai, iff_true_intro hea, iff_true_intro (hea).symm, iff_true_intro heb, iff_true_intro (heb).symm]
      · simp [insertE, h, upd, iff_false_intro hie, iff_false_intro hei, iff_false_intro hiea, iff_false_intro heai, iff_true_intro hea, iff_true_intro (hea).symm, iff_false_intro heb, iff_false_intro (Ne.symm heb)]
    · rcases eq_or_ne eb lst with heb | heb
      · simp [insertE, h, upd, iff_false_intro hie, iff_false_intro hei, iff_false_intro hiea, iff_false_intro heai, iff_false_intro hea, iff_false_intro (Ne.symm hea), iff_true_intro heb, iff_true_intro (heb).symm]
      · simp [insertE, h, upd, iff_false_intro hie, iff_false_intro hei, iff_false_intro hiea, iff_false_intro heai, iff_false_intro hea, iff_false_intro (Ne.symm hea), iff_false_intro heb, iff_false_intro (Ne.symm heb)]
  · rcases eq_or_ne eb ((s.store eb).next) with hea | hea
    · rcases eq_or_ne eb lst with heb | heb
      · simp [insertE, h, upd, iff_false_intro hie, iff_false_intro hei, iff_false_intro hiea, iff_false_intro heai, iff_true_intro hea, iff_true_intro (hea).symm, iff_true_intro heb, iff_true_intro (heb).symm]
      · simp [insertE, h, upd, iff_false_intro hie, iff_false_intro hei, iff_false_intro hiea, iff_false_intro heai, iff_true_intro hea, iff_true_intro (hea).symm, iff_false_intro heb, iff_false_intro (Ne.symm heb)]
    · rcases eq_or_ne eb lst with heb | heb
      · simp [insertE, h, upd, iff_false_intro hie, iff_false_intro hei, iff_false_intro hiea, iff_false_intro heai, iff_false_intro hea, iff_false_intro (Ne.symm hea), iff_true_intro heb, iff_true_intro (heb).symm]
      · simp [insertE, h, upd, iff_false_intro hie, iff_false_intro hei, iff_false_intro hiea, iff_false_intro heai, iff_false_intro hea, iff_false_intro (Ne.symm hea), iff_false_intro heb, iff_false_intro (Ne.symm heb)]
  · intro j hj
    rcases eq_or_ne j eb with hj2 | hj2
    · rcases eq_or_ne j ((s.store eb).next) with hj3 | hj3
      · rcases eq_or_ne eb ((s.store eb).next) with hea | hea
        · rcases eq_or_ne eb lst with heb | heb
          · simp [insertE, h, upd, iff_false_intro hie, iff_false_intro hei, iff_false_intro hiea, iff_false_intro heai, iff_false_intro hj, iff_true_intro hj2, iff_true_intro (hj2).symm, iff_true_intro hj3, iff_true_intro (hj3).symm, iff_true_intro hea, iff_true_intro (hea).symm, iff_true_intro heb, iff_true_intro (heb).symm]
          · simp [insertE, h, upd, iff_false_intro hie, iff_false_intro hei, iff_false_intro hiea, iff_false_intro heai, iff_false_intro hj, iff_true_intro hj2, iff_true_intro (hj2).symm, iff_true_intro hj3, iff_true_intro (hj3).symm, iff_true_intro hea, iff_true_intro (hea).symm, iff_false_intro heb, iff_false_intro (Ne.symm heb)]
        · rcases eq_or_ne eb lst with heb | heb
          · simp [insertE, h, upd, iff_false_intro hie, iff_false_intro hei, iff_false_intro hiea, iff_false_intro heai, iff_false_intro hj, iff_true_intro hj2, iff_true_intro (hj2).symm, iff_true_intro hj3, iff_true_intro (hj3).symm, iff_false_intro hea, iff_false_intro (Ne.symm hea), iff_true_intro heb, iff_true_intro (heb).symm]
          · simp [insertE, h, upd, iff_false_intro hie, iff_false_intro hei, iff_false_intro hiea, iff_false_intro heai, iff_false_intro hj, iff_true_intro hj2, iff_true_intro (hj2).symm, iff_true_intro hj3, iff_true_intro (hj3).symm, iff_false_intro hea, iff_false_intro (Ne.symm hea), iff_false_intro heb, iff_false_intro (Ne.symm heb)]
      · rcases eq_or_ne eb ((s.store eb).next) with hea | hea
        · rcases eq_or_ne eb lst with heb | heb
          · simp [insertE, h, upd, iff_false_intro hie, iff_false_intro hei, iff_false_intro hiea, iff_false_intro heai, iff_false_intro hj, iff_true_intro hj2, iff_true_intro (hj2).symm, iff_false_intro hj3, iff_false_intro (Ne.symm hj3), iff_true_intro hea, iff_true_intro (hea).symm, iff_true_intro heb, iff_true_intro (heb).symm]
          · simp [insertE, h, upd, iff_false_intro hie, iff_false_intro hei, iff_false_intro hiea, iff_false_intro heai, iff_false_intro hj, iff_true_intro hj2, iff_true_intro (hj2).symm, iff_false_intro hj3, iff_false_intro (Ne.symm hj3), iff_true_intro hea, iff_true_intro (hea).symm, iff_false_intro heb, iff_false_intro (Ne.symm heb)]
        · rcases eq_or_ne eb lst with heb | heb
          · simp [insertE, h, upd, iff_false_intro hie, iff_false_intro hei, iff_false_intro hiea, iff_false_intro heai, iff_false_intro hj, iff_true_intro hj2, iff_true_intro (hj2).symm, iff_false_intro hj3, iff_false_intro (Ne.symm hj3), iff_false_intro hea, iff_false_intro (Ne.symm hea), iff_true_intro heb, iff_true_intro (heb).symm]
          · simp [insertE, h, upd, iff_false_intro hie, iff_false_intro hei, iff_false_intro hiea, iff_false_intro heai, iff_false_intro hj, iff_true_intro hj2, iff_true_intro (hj2).symm, iff_false_intro hj3, iff_false_intro (Ne.symm hj3), iff_false_intro hea, iff_false_intro (Ne.symm hea), iff_false_intro heb, iff_false_intro (Ne.symm heb)]
    · rcases eq_or_ne j ((s.store eb).next) with hj3 | hj3
      · rcases eq_or_ne eb ((s.store eb).next) with hea | hea
        · rcases eq_or_ne eb lst with heb | heb
          · simp [insertE, h, upd, iff_false_intro hie, iff_false_intro hei, iff_false_intro hiea, iff_false_intro heai, iff_false_intro hj, iff_false_intro hj2, iff_false_intro (Ne.symm hj2), iff_true_intro hj3, iff_true_intro (hj3).symm, iff_true_intro hea, iff_true_intro (hea).symm, iff_true_intro heb, iff_true_intro (heb).symm]
          · simp [insertE, h, upd, iff_false_intro hie, iff_false_intro hei, iff_false_intro hiea, iff_false_intro heai, iff_false_intro hj, iff_false_intro hj2, iff_false_intro (Ne.symm hj2), iff_true_intro hj3, iff_true_intro (hj3).symm, iff_true_intro hea, iff_true_intro (hea).symm, iff_false_intro heb, iff_false_intro (Ne.symm heb)]
        · rcases eq_or_ne eb lst with heb | heb
          · simp [insertE, h, upd, iff_false_intro hie, iff_false_intro hei, iff_false_intro hiea, iff_false_intro heai, iff_false_intro hj, iff_false_intro hj2, iff_false_intro (Ne.symm hj2), iff_true_intro hj3, iff_true_intro (hj3).symm, iff_false_intro hea, iff_false_intro (Ne.symm hea), iff_true_intro heb, iff_true_intro (heb).symm]
          · simp [insertE, h, upd, iff_false_intro hie, iff_false_intro hei, iff_false_intro hiea, iff_false_intro heai, iff_false_intro hj, iff_false_intro hj2, iff_false_intro (Ne.symm hj2), iff_true_intro hj3, iff_true_intro (hj3).symm, iff_false_intro hea, iff_false_intro (Ne.symm hea), iff_false_intro heb, iff_false_intro (Ne.symm heb)]
      · rcases eq_or_ne eb ((s.store eb).next) with hea | hea
        · rcases eq_or_ne eb lst with heb | heb
          · simp [insertE, h, upd, iff_false_intro hie, iff_false_intro hei, iff_false_intro hiea, iff_false_intro heai, iff_false_intro hj, iff_false_intro hj2, iff_false_intro (Ne.symm hj2), iff_false_intro hj3, iff_false_intro (Ne.symm hj3), iff_true_intro hea, iff_true_intro (hea).symm, iff_true_intro heb, iff_true_intro (heb).symm]
          · simp [insertE, h, upd, iff_false_intro hie, iff_false_intro hei, iff_false_intro hiea, iff_false_intro heai, iff_false_intro hj, iff_false_intro hj2, iff_false_intro (Ne.symm hj2), iff_false_intro hj3, iff_false_intro (Ne.symm hj3), iff_true_intro hea, iff_true_intro (hea).symm, iff_false_intro heb, iff_false_intro (Ne.symm heb)]
        · rcases eq_or_ne eb lst with heb | heb
          · simp [insertE, h, upd, iff_false_intro hie, iff_false_intro hei, iff_false_intro hiea, iff_false_intro heai, iff_false_intro hj, iff_false_intro hj2, iff_false_intro (Ne.symm hj2), iff_false_intro hj3, iff_false_intro (Ne.symm hj3), iff_false_intro hea, iff_false_intro (Ne.symm hea), iff_true_intro heb, iff_true_intro (heb).symm]
          · simp [insertE, h, upd, iff_false_intro hie, iff_false_intro hei, iff_false_intro hiea, iff_false_intro heai, iff_false_intro hj, iff_false_intro hj2, iff_false_intro (Ne.symm hj2), iff_false_intro hj3, iff_false_intro (Ne.symm hj3), iff_false_intro hea, iff_false_intro (Ne.symm hea), iff_false_intro heb, iff_false_intro (Ne.symm heb)]
  · simp [insertE, h]
  · simp [insertE, h]

set_option maxRecDepth 4000 in
/-- `removeE` on a face with entry references, when the removed edge is not
simultaneously `first` and `last`: full pointwise description.
`(s.store e).prev` / `(s.store e).next` are the neighbours being relinked. -/
theorem removeE_spec (s : FaceState) (e f lst : Nat)
    (h : s.entry = some (f, lst)) (hguard : ¬(f = e ∧ lst = e)) :
    (removeE s e).entry
      = some ((if f = e then (s.store e).next else f),
              (if lst = e then (s.store e).prev else lst)) ∧
    ((removeE s e).store ((s.store e).prev)).next = (s.store e).next ∧
    ((removeE s e).store ((s.store e).next)).prev = (s.store e).prev ∧
    (∀ j, j ≠ (s.store e).prev → ((removeE s e).store j).next = (s.store j).next) ∧
    (∀ j, j ≠ (s.store e).next → ((removeE s e).store j).prev = (s.store j).prev) ∧
    (∀ j, ((removeE s e).store j).shape = (s.store j).shape) ∧
    (∀ j, ((removeE s e).store j).arc_length = (s.store j).arc_length) ∧
    (∀ j, ((removeE s e).store j).faceSet = (s.store j).faceSet) ∧
    (removeE s e).boxCache = s.boxCache ∧
    (removeE s e).orientCache = s.orientCache := by
  refine ⟨?_, ?_, ?_, ?_, ?_, ?_, ?_, ?_, ?_, ?_⟩
  · simp [removeE, FaceState.first, FaceState.last, h, hguard, upd]
  · rcases eq_or_ne ((s.store e).prev) ((s.store e).next) with hpn | hpn
    · simp [removeE, FaceState.first, FaceState.last, h, hguard, upd, iff_true_intro hpn, iff_true_intro (hpn).symm]
    · simp [removeE, FaceState.first, FaceState.last, h, hguard, upd, iff_false_intro hpn, iff_false_intro (Ne.symm hpn)]
  · rcases eq_or_ne ((s.store e).next) ((s.store e).prev) with hpn | hpn
    · simp [removeE, FaceState.first, FaceState.last, h, hguard, upd, iff_true_intro hpn, iff_true_intro (hpn).symm]
    · simp [removeE, FaceState.first, FaceState.last, h, hguard, upd, iff_false_intro hpn, iff_false_intro (Ne.symm hpn)]
  · intro j hj
    rcases eq_or_ne j ((s.store e).next) with hj2 | hj2
    · simp [removeE, FaceState.first, FaceState.last, h, hguard, upd, iff_false_intro hj, iff_true_intro hj2, iff_true_intro (hj2).symm]
    · simp [removeE, FaceState.first, FaceState.last, h, hguard, upd, iff_false_intro hj, iff_false_intro hj2, iff_false_intro (Ne.symm hj2)]
  · intro j hj
    rcases eq_or_ne j ((s.store e).prev) with hj2 | hj2
    · simp [removeE, FaceState.first, FaceState.last, h, hguard, upd, iff_false_intro hj, iff_true_intro hj2, iff_true_intro (hj2).symm]
    · simp [removeE, FaceState.first, FaceState.last, h, hguard, upd, iff_false_intro hj, iff_false_intro hj2, iff_false_intro (Ne.symm hj2)]
  · intro j
    rcases eq_or_ne j ((s.store e).prev) with hj1 | hj1
    · rcases eq_or_ne j ((s.store e).next) with hj2 | hj2
      · simp [removeE, FaceState.first, FaceState.last, h, hguard, upd, iff_true_intro hj1, iff_true_intro (hj1).symm, iff_true_intro hj2, iff_true_intro (hj2).symm]
      · simp [removeE, FaceState.first, FaceState.last, h, hguard, upd, iff_true_intro hj1, iff_true_intro (hj1).symm, iff_false_intro hj2, iff_false_intro (Ne.symm hj2)]
    · rcases eq_or_ne j ((s.store e).next) with hj2 | hj2
      · simp [removeE, FaceState.first, FaceState.last, h, hguard, upd, iff_false_intro hj1, iff_false_intro (Ne.symm hj1), iff_true_intro hj2, iff_true_intro (hj2).symm]
      · simp [removeE, FaceState.first, FaceState.last, h, hguard, upd, iff_false_intro hj1, iff_false_intro (Ne.symm hj1), iff_false_intro hj2, iff_false_intro (Ne.symm hj2)]
  · intro j
    rcases eq_or_ne j ((s.store e).prev) with hj1 | hj1
    · rcases eq_or_ne j ((s.store e).next) with hj2 | hj2
      · simp [removeE, FaceState.first, FaceState.last, h, hguard, upd, iff_true_intro hj1, iff_true_intro (hj1).symm, iff_true_intro hj2, iff_true_intro (hj2).symm]
      · simp [removeE, FaceState.first, FaceState.last, h, hguard, upd, iff_true_intro hj1, iff_true_intro (hj1).symm, iff_false_intro hj2, iff_false_intro (Ne.symm hj2)]
    · rcases eq_or_ne j ((s.store e).next) with hj2 | hj2
      · simp [removeE, FaceState.first, FaceState.last, h, hguard, upd, iff_false_intro hj1, iff_false_intro (Ne.symm hj1), iff_true_intro hj2, iff_true_intro (hj2).symm]
      · simp [removeE, FaceState.first, FaceState.last, h, hguard, upd, iff_false_intro hj1, iff_false_intro (Ne.symm hj1), iff_false_intro hj2, iff_false_intro (Ne.symm hj2)]
  · intro j
    rcases eq_or_ne j ((s.store e).prev) with hj1 | hj1
    · rcases eq_or_ne j ((s.store e).next) with hj2 | hj2
      · simp [removeE, FaceState.first, FaceState.last, h, hguard, upd, iff_true_intro hj1, iff_true_intro (hj1).symm, iff_true_intro hj2, iff_true_intro (hj2).symm]
      · simp [removeE, FaceState.first, FaceState.last, h, hguard, upd, iff_true_intro hj1, iff_true_intro (hj1).symm, iff_false_intro hj2, iff_false_intro (Ne.symm hj2)]
    · rcases eq_or_ne j ((s.store e).next) with hj2 | hj2
      · simp [removeE, FaceState.first, FaceState.last, h, hguard, upd, iff_false_intro hj1, iff_false_intro (Ne.symm hj1), iff_true_intro hj2, iff_true_intro (hj2).symm]
      · simp [removeE, FaceState.first, FaceState.last, h, hguard, upd, iff_false_intro hj1, iff_false_intro (Ne.symm hj1), iff_false_intro hj2, iff_false_intro (Ne.symm hj2)]
  · simp [removeE, FaceState.first, FaceState.last, h, hguard]
  · simp [removeE, FaceState.first, FaceState.last, h, hguard]

theorem removeE_single (s : FaceState) (e : Nat) (h : s.entry = some (e, e)) :
    (removeE s e).entry = none ∧ (removeE s e).store = s.store ∧
    (removeE s e).boxCache = s.boxCache ∧ (removeE s e).orientCache = s.orientCache := by
  refine ⟨?_, ?_, ?_, ?_⟩ <;> simp [removeE, FaceState.first, FaceState.last, h]

/-- The list obtained by inserting `id` right after the first occurrence of
`eb`. -/
def spliceAfter : List Nat → Nat → Nat → List Nat
  | [], _, _ => []
  | a :: rest, eb, id => if a = eb then a :: id :: rest else a :: spliceAfter rest eb id

/-- The representing list after `insert(edges, id, eb)`: when `eb` is the last
edge the new edge becomes `first` (the source moves the `first` reference), so
the list gains `id` at the front; otherwise `id` is spliced in after `eb`. -/
def insertList (l : List Nat) (eb id : Nat) : List Nat :=
  if eb = lastE l then id :: l else spliceAfter l eb id

theorem spliceAfter_eq (l1 l2 : List Nat) (eb id : Nat) (h : eb ∉ l1) :
    spliceAfter (l1 ++ eb :: l2) eb id = l1 ++ eb :: id :: l2 := by
  induction l1 with
  | nil => simp [spliceAfter]
  | cons a t ih =>
    have ha : a ≠ eb := fun he => h (he ▸ List.mem_cons_self _ _)
    simp only [List.cons_append, spliceAfter, if_neg ha, List.append_eq]
    rw [ih (fun hm => h (List.mem_cons_of_mem _ hm))]

theorem headI_append_cons (l1 : List Nat) (a : Nat) (xs ys : List Nat) :
    (l1 ++ a :: xs).headI = (l1 ++ a :: ys).headI := by
  cases l1 <;> rfl

theorem lastE_append_cons_cons (l1 : List Nat) (a b : Nat) (xs : List Nat) :
    lastE (l1 ++ a :: b :: xs) = lastE (b :: xs) := by
  unfold lastE
  rw [List.getLast?_append_of_ne_nil _ (by simp), List.getLast?_cons_cons]

theorem mem_tail_subset {l : List Nat} {x : Nat} (h : x ∈ l.tail) : x ∈ l := by
  cases l with
  | nil => simp at h
  | cons a t => exact List.mem_cons_of_mem _ h

theorem head?_eq_some_headI {l : List Nat} (h : l ≠ []) : l.head? = some l.headI := by
  cases l with
  | nil => exact absurd rfl h
  | cons a t => rfl

/-- `insert` of a fresh edge after an edge of the face preserves the loop
invariant, with the representing list given by `insertList`. -/
theorem insertE_isLoop {len : Shape → ℚ} {s : FaceState} {l : List Nat} {id eb : Nat}
    (hl : isLoop s l) (hid : id ∉ l) (heb : eb ∈ l) :
    isLoop (insertE len s id eb) (insertList l eb id) := by
  have hwrap := isLoop_wrap hl
  obtain ⟨hne, hnd, hent, hch⟩ := hl
  have hie : id ≠ eb := fun he => hid (he ▸ heb)
  have hif : id ≠ l.headI := fun he => hid (he ▸ headI_mem hne)
  have hil : id ≠ lastE l := fun he => hid (he ▸ lastE_mem hne)
  by_cases heq : eb = lastE l
  · -- insert after the last edge: the new edge becomes `first`
    have hNF : (s.store eb).next = l.headI := by rw [heq]; exact hwrap.1
    have hiea : id ≠ (s.store eb).next := by rw [hNF]; exact hif
    obtain ⟨hsent, hnext_eb, hprev_ea, hprev_id, hnext_id, hnfr, hpfr, _, _, _, _, _, _, _⟩ :=
      insertE_spec len s id eb l.headI (lastE l) hent hie hiea
    rw [insertList, if_pos heq]
    refine ⟨by simp, List.nodup_cons.mpr ⟨hid, hnd⟩, ?_, ?_⟩
    · rw [List.headI_cons, lastE_cons_of_ne id hne, hsent, if_pos heq.symm]
    · have hshape : (id :: l) ++ [(id :: l).headI] = id :: (l ++ [id]) := by simp
      rw [hshape]
      refine List.chain'_cons'.mpr ⟨?_, ?_⟩
      · intro y hy
        have hhead : (l ++ [id]).head? = some l.headI := by
          cases l with
          | nil => exact absurd rfl hne
          | cons a t => rfl
        rw [Option.mem_def, hhead] at hy
        injection hy with hy
        subst hy
        constructor
        · rw [hnext_id, hNF]
        · have := hprev_ea
          rw [hNF] at this
          exact this
      · refine List.chain'_append.mpr ⟨?_, List.chain'_singleton _, ?_⟩
        · refine chain'_transfer (List.chain'_append.mp hch).1 ?_ ?_
          · intro a ha
            refine hnfr a ?_ ?_
            · exact fun he => hid (he ▸ List.mem_of_mem_dropLast ha)
            · intro he
              exact nodup_lastE_not_mem_dropLast hnd hne (heq ▸ he ▸ ha)
          · intro b hb
            refine hpfr b ?_ ?_
            · exact fun he => hid (he ▸ List.mem_of_mem_tail hb)
            · rw [hNF]
              intro he
              exact nodup_headI_not_mem_tail hnd (he ▸ hb)
        · intro x hx y hy
          rw [getLast?_eq_lastE hne] at hx
          simp only [Option.mem_def, Option.some.injEq, List.head?_cons] at hx hy
          subst hx hy
          exact ⟨heq ▸ hnext_eb, heq ▸ hprev_id⟩
  · -- insert strictly inside the loop
    obtain ⟨l1, l2, hdecomp⟩ := List.append_of_mem heb
    subst hdecomp
    have hl2ne : l2 ≠ [] := by
      rintro rfl
      exact heq (lastE_concat l1 eb).symm
    obtain ⟨c, l2', rfl⟩ : ∃ c l2', l2 = c :: l2' := by
      cases l2 with
      | nil => exact absurd rfl hl2ne
      | cons c t => exact ⟨c, t, rfl⟩
    have hch' : List.Chain' (adjS s.store)
        (l1 ++ eb :: c :: (l2' ++ [(l1 ++ eb :: c :: l2').headI])) := by
      have := hch
      simpa [List.append_assoc] using this
    obtain ⟨hch1, hebc, hch2⟩ := List.chain'_append_cons_cons.mp hch'
    have hNC : (s.store eb).next = c := hebc.1
    have hcmem : c ∈ l1 ++ eb :: c :: l2' := by simp
    have hiea : id ≠ (s.store eb).next := by
      rw [hNC]; exact fun he => hid (he ▸ hcmem)
    obtain ⟨hsent, hnext_eb, hprev_ea, hprev_id, hnext_id, hnfr, hpfr, _, _, _, _, _, _, _⟩ :=
      insertE_spec len s id eb (l1 ++ eb :: c :: l2').headI (lastE (l1 ++ eb :: c :: l2'))
        hent hie hiea
    -- pieces of the Nodup hypothesis
    obtain ⟨hnd1, hnd2, hdisj⟩ := List.nodup_append.mp hnd
    have n_eb_l1 : eb ∉ l1 := fun hm => hdisj hm (List.mem_cons_self _ _)
    have n_c_l1 : c ∉ l1 := fun hm =>
      hdisj hm (List.mem_cons_of_mem _ (List.mem_cons_self _ _))
    have n_eb_cl2 : eb ∉ c :: l2' := (List.nodup_cons.mp hnd2).1
    have n_c_eb : c ≠ eb := fun he => n_eb_cl2 (he ▸ List.mem_cons_self _ _)
    have hnd3 : (c :: l2').Nodup := (List.nodup_cons.mp hnd2).2
    have n_c_l2' : c ∉ l2' := (List.nodup_cons.mp hnd3).1
    have hid_l1 : id ∉ l1 := fun hm => hid (List.mem_append_left _ hm)
    have hid_cl2 : id ∉ c :: l2' := fun hm =>
      hid (List.mem_append_right _ (List.mem_cons_of_mem _ hm))
    have hh0 : (l1 ++ eb :: c :: l2').headI = eb ∨ (l1 ++ eb :: c :: l2').headI ∈ l1 := by
      cases l1 with
      | nil => exact Or.inl rfl
      | cons a t => exact Or.inr (List.mem_cons_self _ _)
    have hch0 : c ≠ (l1 ++ eb :: c :: l2').headI := by
      rcases hh0 with h0 | h0
      · rw [h0]; exact n_c_eb
      · exact fun he => n_c_l1 (he ▸ h0)
    rw [insertList, if_neg heq, spliceAfter_eq l1 (c :: l2') eb id n_eb_l1]
    refine ⟨by simp, ?_, ?_, ?_⟩
    · -- Nodup of the spliced list
      refine List.nodup_append.mpr ⟨hnd1, ?_, ?_⟩
      · refine List.nodup_cons.mpr ⟨?_, List.nodup_cons.mpr ⟨hid_cl2, hnd3⟩⟩
        intro hm
        rcases List.mem_cons.mp hm with he | hm2
        · exact hie he.symm
        · exact n_eb_cl2 hm2
      · intro a ha hb
        rcases List.mem_cons.mp hb with he | hb2
        · exact n_eb_l1 (he ▸ ha)
        · rcases List.mem_cons.mp hb2 with he | hb3
          · exact hid_l1 (he ▸ ha)
          · exact hdisj ha (List.mem_cons_of_mem _ hb3)
    · -- entry references
      rw [hsent, if_neg (Ne.symm heq)]
      rw [headI_append_cons l1 eb (id :: c :: l2') (c :: l2')]
      have h1 : lastE (l1 ++ eb :: id :: c :: l2') = lastE (id :: c :: l2') :=
        lastE_append_cons_cons l1 eb id (c :: l2')
      have h2 : lastE (l1 ++ eb :: c :: l2') = lastE (c :: l2') :=
        lastE_append_cons_cons l1 eb c l2'
      rw [h1, h2, lastE_cons_of_ne id (by simp)]
    · -- the chain
      have hH : (l1 ++ eb :: id :: c :: l2').headI = (l1 ++ eb :: c :: l2').headI :=
        headI_append_cons l1 eb (id :: c :: l2') (c :: l2')
      rw [hH]
      have hshape : (l1 ++ eb :: id :: c :: l2') ++ [(l1 ++ eb :: c :: l2').headI]
          = l1 ++ eb :: id :: (c :: (l2' ++ [(l1 ++ eb :: c :: l2').headI])) := by
        simp [List.append_assoc]
      rw [hshape]
      refine List.chain'_append_cons_cons.mpr ⟨?_, ⟨hnext_eb, hprev_id⟩, ?_⟩
      · refine chain'_transfer hch1 ?_ ?_
        · intro a ha
          rw [List.dropLast_concat] at ha
          exact hnfr a (fun he => hid_l1 (he ▸ ha)) (fun he => n_eb_l1 (he ▸ ha))
        · intro b hb
          have hb' := mem_tail_subset hb
          refine hpfr b ?_ ?_
          · intro he
            rcases List.mem_append.mp (he ▸ hb') with hm | hm
            · exact hid_l1 hm
            · exact hie (by simpa using hm)
          · rw [hNC]
            intro he
            rcases List.mem_append.mp (he ▸ hb') with hm | hm
            · exact n_c_l1 hm
            · exact n_c_eb (by simpa using hm)
      · refine List.chain'_cons.mpr ⟨⟨by rw [hnext_id, hNC], ?_⟩, ?_⟩
        · have := hprev_ea
          rw [hNC] at this
          exact this
        · refine chain'_transfer hch2 ?_ ?_
          · intro a ha
            have ha' : a ∈ c :: l2' := by
              have hsh : c :: (l2' ++ [(l1 ++ eb :: c :: l2').headI])
                  = (c :: l2') ++ [(l1 ++ eb :: c :: l2').headI] := by simp
              rw [hsh, List.dropLast_concat] at ha
              exact ha
            exact hnfr a (fun he => hid_cl2 (he ▸ ha'))
              (fun he => n_eb_cl2 (he ▸ ha'))
          · intro b hb
            simp only [List.tail_cons] at hb
            refine hpfr b ?_ ?_
            · intro he
              rcases List.mem_append.mp (he ▸ hb) with hm | hm
              · exact hid (List.mem_append_right _
                  (List.mem_cons_of_mem _ (List.mem_cons_of_mem _ hm)))
              · exact hif (by simpa using hm)
            · rw [hNC]
              intro he
              rcases List.mem_append.mp (he ▸ hb) with hm | hm
              · exact n_c_l2' hm
              · exact hch0 (by simpa using hm)

/-- `remove` of an edge from a loop with at least two edges preserves the
invariant, with the edge erased from the representing list. -/
theorem removeE_isLoop {s : FaceState} {l : List Nat} {e : Nat}
    (hl : isLoop s l) (he : e ∈ l) (h2 : 2 ≤ l.length) :
    isLoop (removeE s e) (l.erase e) := by
  have hwrap := isLoop_wrap hl
  obtain ⟨hne, hnd, hent, hch⟩ := hl
  have hfl : l.headI ≠ lastE l := nodup_headI_ne_lastE hnd h2
  have hguard : ¬(l.headI = e ∧ lastE l = e) := by
    rintro ⟨h1, h2'⟩
    exact hfl (h1.trans h2'.symm)
  obtain ⟨hrent, hnp, hpn, hnfr, hpfr, _, _, _, _, _⟩ :=
    removeE_spec s e l.headI (lastE l) hent hguard
  obtain ⟨l1, l2, hdecomp⟩ := List.append_of_mem he
  subst hdecomp
  obtain ⟨hnd1, hnd2, hdisj⟩ := List.nodup_append.mp hnd
  have n_e_l1 : e ∉ l1 := fun hm => hdisj hm (List.mem_cons_self _ _)
  have n_e_l2 : e ∉ l2 := (List.nodup_cons.mp hnd2).1
  have hnd3 : l2.Nodup := (List.nodup_cons.mp hnd2).2
  have herase : (l1 ++ e :: l2).erase e = l1 ++ l2 := by
    rw [List.erase_append_right _ n_e_l1, List.erase_cons_head]
  rw [herase]
  cases l1 with
  | nil =>
    -- removing the first edge
    cases l2 with
    | nil => simp at h2
    | cons c t =>
      simp only [List.nil_append] at hent hch hwrap hrent hnp hpn hnfr hpfr hfl ⊢
      have hch2 : List.Chain' (adjS s.store) ((c :: t) ++ [e]) := by
        have := (List.chain'_cons.mp (by simpa using hch)).2
        simpa using this
      have hN : (s.store e).next = c :=
        (List.chain'_cons.mp (by simpa using hch : List.Chain' (adjS s.store)
          (e :: c :: (t ++ [e])))).1.1
      have hP : (s.store e).prev = lastE (c :: t) := by
        have := hwrap.2
        simp only [List.headI_cons] at this
        rw [this, lastE_cons_of_ne e (by simp)]
      refine ⟨by simp, hnd3, ?_, ?_⟩
      · have hfl' : e ≠ lastE (c :: t) := by
          have := hfl
          simp only [List.headI_cons,
            lastE_cons_of_ne e (show (c :: t : List Nat) ≠ [] by simp)] at this
          exact this
        rw [hrent]
        simp [lastE_cons_of_ne e (show (c :: t : List Nat) ≠ [] by simp), hN,
          iff_false_intro (Ne.symm hfl')]
      · refine List.chain'_append.mpr ⟨?_, List.chain'_singleton _, ?_⟩
        · refine chain'_transfer (List.chain'_append.mp hch2).1 ?_ ?_
          · intro a ha
            refine hnfr a ?_
            rw [hP]
            intro hEq
            exact nodup_lastE_not_mem_dropLast hnd3 (by simp) (hEq ▸ ha)
          · intro b hb
            refine hpfr b ?_
            rw [hN]
            intro hEq
            exact nodup_headI_not_mem_tail hnd3 (hEq ▸ hb)
        · intro x hx y hy
          rw [getLast?_eq_lastE (by simp : (c : Nat) :: t ≠ [])] at hx
          simp only [Option.mem_def, Option.some.injEq, List.head?_cons] at hx hy
          subst hx hy
          constructor
          · have := hnp
            rw [hP, hN] at this
            exact this
          · have := hpn
            rw [hP, hN] at this
            exact this
  | cons a t1 =>
    cases l2 with
    | nil =>
      -- removing the last edge
      have hlast : lastE ((a :: t1) ++ [e]) = e := lastE_concat _ _
      have hhead : ((a :: t1) ++ [e]).headI = a := rfl
      have hfe : (a : Nat) ≠ e := fun hEq => n_e_l1 (hEq ▸ List.mem_cons_self _ _)
      -- split the loop chain
      have hch' : List.Chain' (adjS s.store) ((a :: t1) ++ ([e] ++ [a])) := by
        simpa [List.append_assoc] using hch
      obtain ⟨hchl1, hchr, hglue⟩ := List.chain'_append.mp hch'
      have hxmem : lastE (a :: t1) ∈ (a :: t1).getLast? := by
        rw [getLast?_eq_lastE (show (a : Nat) :: t1 ≠ [] by simp)]; rfl
      have hP : (s.store e).prev = lastE (a :: t1) := by
        have := hglue (lastE (a :: t1)) hxmem e rfl
        exact this.2
      have hN : (s.store e).next = a := by
        have := (List.chain'_cons.mp hchr).1
        exact this.1
      simp only [List.append_nil]
      refine ⟨by simp, hnd1, ?_, ?_⟩
      · rw [hrent, hhead, hlast]
        simp [iff_false_intro hfe, hP]
      · refine List.chain'_append.mpr ⟨?_, List.chain'_singleton _, ?_⟩
        · refine chain'_transfer hchl1 ?_ ?_
          · intro x hx
            refine hnfr x ?_
            rw [hP]
            intro hEq
            exact nodup_lastE_not_mem_dropLast hnd1 (by simp) (hEq ▸ hx)
          · intro b hb
            refine hpfr b ?_
            rw [hN]
            intro hEq
            exact nodup_headI_not_mem_tail hnd1 (hEq ▸ hb)
        · intro x hx y hy
          rw [getLast?_eq_lastE (by simp : (a : Nat) :: t1 ≠ [])] at hx
          simp only [Option.mem_def, Option.some.injEq, List.head?_cons] at hx hy
          subst hx hy
          constructor
          · have := hnp
            rw [hP, hN] at this
            exact this
          · have := hpn
            rw [hP, hN] at this
            exact this
    | cons c t2 =>
      -- removing an interior edge
      have hhead : ((a :: t1) ++ e :: c :: t2).headI = a := rfl
      have hfe : (a : Nat) ≠ e := fun hEq => n_e_l1 (hEq ▸ List.mem_cons_self _ _)
      have hlastE2 : lastE ((a :: t1) ++ e :: c :: t2) = lastE (c :: t2) :=
        lastE_append_cons_cons _ _ _ _
      have hlaste : lastE ((a :: t1) ++ e :: c :: t2) ≠ e := by
        rw [hlastE2]
        intro hEq
        exact n_e_l2 (hEq ▸ lastE_mem (by simp))
      have hch' : List.Chain' (adjS s.store)
          ((a :: t1) ++ e :: c :: (t2 ++ [a])) := by
        simpa [List.append_assoc] using hch
      obtain ⟨hch1, hec, hch2⟩ := List.chain'_append_cons_cons.mp hch'
      have hN : (s.store e).next = c := hec.1
      obtain ⟨hchl1, _, hglue⟩ := List.chain'_append.mp hch1
      have hxmem : lastE (a :: t1) ∈ (a :: t1).getLast? := by
        rw [getLast?_eq_lastE (show (a : Nat) :: t1 ≠ [] by simp)]; rfl
      have hP : (s.store e).prev = lastE (a :: t1) := by
        have := hglue (lastE (a :: t1)) hxmem e rfl
        exact this.2
      have n_c_l1 : c ∉ (a :: t1) := fun hm =>
        hdisj hm (List.mem_cons_of_mem _ (List.mem_cons_self _ _))
      have hnd4 : (c :: t2).Nodup := hnd3
      have n_c_t2 : c ∉ t2 := (List.nodup_cons.mp hnd3).1
      refine ⟨by simp, ?_, ?_, ?_⟩
      · refine List.nodup_append.mpr ⟨hnd1, hnd4, ?_⟩
        intro x hx hy
        exact hdisj hx (List.mem_cons_of_mem _ hy)
      · rw [hrent, hhead, if_neg (Ne.symm (fun hEq => hfe hEq.symm)), hlastE2,
          if_neg (by rw [← hlastE2]; exact hlaste)]
        have : ((a :: t1) ++ c :: t2).headI = a := rfl
        rw [this]
        have : lastE ((a :: t1) ++ c :: t2) = lastE (c :: t2) := by
          unfold lastE
          rw [List.getLast?_append_of_ne_nil _ (by simp)]
        rw [this]
      · have hshape : ((a :: t1) ++ c :: t2) ++ [((a :: t1) ++ c :: t2).headI]
            = (a :: t1) ++ (c :: (t2 ++ [a])) := by
          simp [List.append_assoc]
        rw [hshape]
        refine List.chain'_append.mpr ⟨?_, ?_, ?_⟩
        · refine chain'_transfer hchl1 ?_ ?_
          · intro x hx
            refine hnfr x ?_
            rw [hP]
            intro hEq
            exact nodup_lastE_not_mem_dropLast hnd1 (by simp) (hEq ▸ hx)
          · intro b hb
            refine hpfr b ?_
            rw [hN]
            intro hEq
            exact n_c_l1 (hEq ▸ mem_tail_subset hb)
        · refine chain'_transfer hch2 ?_ ?_
          · intro x hx
            have hx' : x ∈ c :: t2 := by
              have hsh : c :: (t2 ++ [a]) = (c :: t2) ++ [a] := by simp
              rw [hsh, List.dropLast_concat] at hx
              exact hx
            refine hnfr x ?_
            rw [hP]
            intro hEq
            exact hdisj (hEq ▸ lastE_mem (l := a :: t1) (by simp))
              (List.mem_cons_of_mem _ hx')
          · intro b hb
            simp only [List.tail_cons] at hb
            refine hpfr b ?_
            rw [hN]
            intro hEq
            rcases List.mem_append.mp (hEq ▸ hb) with hm | hm
            · exact n_c_t2 hm
            · simp only [List.mem_singleton] at hm
              exact n_c_l1 (hm ▸ List.mem_cons_self _ _)
        · intro x hx y hy
          rw [getLast?_eq_lastE (by simp : (a : Nat) :: t1 ≠ [])] at hx
          simp only [Option.mem_def, Option.some.injEq, List.head?_cons] at hx hy
          subst hx hy
          constructor
          · have := hnp
            rw [hP, hN] at this
            exact this
          · have := hpn
            rw [hP, hN] at this
            exact this

/-- One structural mutation of the face: `append(edges, edge)` with a fresh
edge, `insert(edges, newEdge, edgeBefore)` with a fresh edge, or
`remove(edges, edge)`. -/
inductive FOp where
  | app (id : Nat)
  | ins (id : Nat) (eb : Nat)
  | rem (id : Nat)
deriving DecidableEq, Repr

def applyOp (len : Shape → ℚ) (s : FaceState) : FOp → FaceState
  | .app id => appendE len s id
  | .ins id eb => insertE len s id eb
  | .rem id => removeE s id

def runOps (len : Shape → ℚ) (s : FaceState) : List FOp → FaceState
  | [] => s
  | op :: ops => runOps len (applyOp len s op) ops

/-- The representing list after one operation. -/
def stepList (l : List Nat) : FOp → List Nat
  | .app id => l ++ [id]
  | .ins id eb => insertList l eb id
  | .rem id => l.erase id

def listAfter (l : List Nat) : List FOp → List Nat
  | [] => l
  | op :: ops => listAfter (stepList l op) ops

/-- Side conditions under which the source's operations are used: an appended
or inserted edge is a fresh object (in JS a newly allocated `Edge`), and
`insert`'s `edgeBefore` and `remove`'s edge belong to the face. -/
def validOps (l : List Nat) : List FOp → Bool
  | [] => true
  | .app id :: ops => !(decide (id ∈ l)) && validOps (l ++ [id]) ops
  | .ins id eb :: ops =>
      !(decide (id ∈ l)) && decide (eb ∈ l) && validOps (insertList l eb id) ops
  | .rem id :: ops => decide (id ∈ l) && validOps (l.erase id) ops

/-- The face is either empty with an empty representing list, or a loop. -/
def loopRel (s : FaceState) (l : List Nat) : Prop :=
  (s.entry = none ∧ l = []) ∨ isLoop s l

theorem runOps_loopRel (len : Shape → ℚ) :
    ∀ (ops : List FOp) (s : FaceState) (l : List Nat),
      loopRel s l → validOps l ops = true →
      loopRel (runOps len s ops) (listAfter l ops) := by
  intro ops
  induction ops with
  | nil => intro s l hrel _; exact hrel
  | cons op ops ih =>
    intro s l hrel hval
    cases op with
    | app id =>
      simp only [validOps, Bool.and_eq_true, Bool.not_eq_true', decide_eq_false_iff_not] at hval
      refine ih _ _ ?_ hval.2
      rcases hrel with ⟨hent, rfl⟩ | hloop
      · exact Or.inr (by simpa using (appendE_empty len s id hent).1)
      · exact Or.inr (appendE_isLoop hloop hval.1)
    | ins id eb =>
      simp only [validOps, Bool.and_eq_true, Bool.not_eq_true', decide_eq_false_iff_not,
        decide_eq_true_eq] at hval
      refine ih _ _ ?_ hval.2
      rcases hrel with ⟨hent, rfl⟩ | hloop
      · exact absurd hval.1.2 (by simp)
      · exact Or.inr (insertE_isLoop hloop hval.1.1 hval.1.2)
    | rem id =>
      simp only [validOps, Bool.and_eq_true, decide_eq_true_eq] at hval
      refine ih _ _ ?_ hval.2
      rcases hrel with ⟨hent, rfl⟩ | hloop
      · exact absurd hval.1 (by simp)
      · rcases Nat.lt_or_ge l.length 2 with hlen | hlen
        · -- the loop has a single edge, which is removed
          have hl1 : l = [id] := by
            cases l with
            | nil => exact absurd hval.1 (by simp)
            | cons a t =>
              cases t with
              | nil =>
                have : id = a := by simpa using hval.1
                rw [this]
              | cons b t' =>
                exact absurd hlen (by simp [Nat.not_lt])
          subst hl1
          have hent1 : s.entry = some (id, id) := by
            have := hloop.2.2.1
            simpa [lastE] using this
          have hrem := removeE_single s id hent1
          exact Or.inl ⟨hrem.1, List.erase_cons_head id []⟩
        · exact Or.inr (removeE_isLoop hloop hval.1 hlen)

theorem isLoop_first_last {s : FaceState} {l : List Nat} (hl : isLoop s l) :
    s.first = some l.headI ∧ s.last = some (lastE l) := by
  simp [FaceState.first, FaceState.last, hl.2.2.1]

theorem headI_eq_getD_zero {l : List Nat} (h : l ≠ []) : l.headI = l.getD 0 0 := by
  cases l with
  | nil => exact absurd rfl h
  | cons a t => rfl

/-- C1.  Starting from any face satisfying the loop invariant and applying any
valid sequence of `append` / `insert` (with `edgeBefore` in the face) /
`remove` operations that leaves the face nonempty: following `next` from
`first` exactly `size` times returns to `first` (and not earlier),
`first.prev == last`, and `last.next == first`. -/
theorem c1_circular_invariant (len : Shape → ℚ) (s0 : FaceState) (l0 : List Nat)
    (ops : List FOp) (fuel : Nat)
    (h0 : isLoop s0 l0) (hval : validOps l0 ops = true)
    (hne : listAfter l0 ops ≠ [])
    (hfuel : (listAfter l0 ops).length ≤ fuel) :
    sizeE (runOps len s0 ops) fuel = (listAfter l0 ops).length ∧
    ∃ f lst, (runOps len s0 ops).first = some f ∧ (runOps len s0 ops).last = some lst ∧
      iterNext (runOps len s0 ops).store (sizeE (runOps len s0 ops) fuel) f = f ∧
      (∀ k, 0 < k → k < sizeE (runOps len s0 ops) fuel →
        iterNext (runOps len s0 ops).store k f ≠ f) ∧
      ((runOps len s0 ops).store f).prev = lst ∧
      ((runOps len s0 ops).store lst).next = f := by
  have hrel := runOps_loopRel len ops s0 l0 (Or.inr h0) hval
  rcases hrel with ⟨_, hnil⟩ | hloop
  · exact absurd hnil hne
  · have htrav := traverseF_eq hloop hfuel
    have hsize : sizeE (runOps len s0 ops) fuel = (listAfter l0 ops).length := by
      rw [sizeE, htrav]
    refine ⟨hsize, listAfter l0 ops |>.headI, lastE (listAfter l0 ops),
      (isLoop_first_last hloop).1, (isLoop_first_last hloop).2, ?_, ?_, ?_, ?_⟩
    · rw [hsize]
      have := @iterNext_getD _ (listAfter l0 ops).headI (listAfter l0 ops)
        hloop.2.2.2 hne (listAfter l0 ops).length le_rfl
      rw [this, List.getD_append_right _ _ _ _ le_rfl]
      simp
    · intro k hk0 hk
      rw [hsize] at hk
      have := @iterNext_getD _ (listAfter l0 ops).headI (listAfter l0 ops)
        hloop.2.2.2 hne k (Nat.le_of_lt hk)
      rw [this, List.getD_append _ _ _ _ hk]
      rw [List.getD_eq_getElem _ _ hk]
      rw [headI_eq_getD_zero hne,
        List.getD_eq_getElem _ _ (Nat.pos_of_ne_zero (by
          intro hlen0
          exact hne (List.length_eq_zero.mp hlen0)))]
      rw [Ne, (hloop.2.1).getElem_inj_iff]
      exact Nat.pos_iff_ne_zero.mp hk0
    · exact (isLoop_wrap hloop).2
    · exact (isLoop_wrap hloop).1

/-- A concrete length function for witnesses. -/
def lenOne : Shape → ℚ := fun _ => 1

/-- Witness for C1: a one-edge face, then insert, append and remove. -/
theorem c1_circular_invariant_witness :
    sizeE (runOps lenOne (appendE lenOne emptyFace 0)
        [FOp.ins 1 0, FOp.app 2, FOp.rem 0]) 2
      = (listAfter [0] [FOp.ins 1 0, FOp.app 2, FOp.rem 0]).length ∧
    ∃ f lst,
      (runOps lenOne (appendE lenOne emptyFace 0)
        [FOp.ins 1 0, FOp.app 2, FOp.rem 0]).first = some f ∧
      (runOps lenOne (appendE lenOne emptyFace 0)
        [FOp.ins 1 0, FOp.app 2, FOp.rem 0]).last = some lst ∧
      iterNext (runOps lenOne (appendE lenOne emptyFace 0)
        [FOp.ins 1 0, FOp.app 2, FOp.rem 0]).store
        (sizeE (runOps lenOne (appendE lenOne emptyFace 0)
          [FOp.ins 1 0, FOp.app 2, FOp.rem 0]) 2) f = f ∧
      (∀ k, 0 < k → k < sizeE (runOps lenOne (appendE lenOne emptyFace 0)
          [FOp.ins 1 0, FOp.app 2, FOp.rem 0]) 2 →
        iterNext (runOps lenOne (appendE lenOne emptyFace 0)
          [FOp.ins 1 0, FOp.app 2, FOp.rem 0]).store k f ≠ f) ∧
      ((runOps lenOne (appendE lenOne emptyFace 0)
        [FOp.ins 1 0, FOp.app 2, FOp.rem 0]).store f).prev = lst ∧
      ((runOps lenOne (appendE lenOne emptyFace 0)
        [FOp.ins 1 0, FOp.app 2, FOp.rem 0]).store lst).next = f :=
  c1_circular_invariant lenOne (appendE lenOne emptyFace 0) [0]
    [FOp.ins 1 0, FOp.app 2, FOp.rem 0] 2
    (by decide) (by decide) (by decide) (by decide)

/-- Each element's `prev` field points at the preceding element (`p` before the
head). -/
def prevLink (st : Nat → EdgeRec) : Nat → List Nat → Prop
  | _, [] => True
  | p, a :: t => (st a).prev = p ∧ prevLink st a t

theorem chain_prevLink {st : Nat → EdgeRec} :
    ∀ {t : List Nat} {p : Nat} {rest : List Nat},
      List.Chain' (adjS st) ((p :: t) ++ rest) → prevLink st p t := by
  intro t
  induction t with
  | nil => intro p rest _; trivial
  | cons a t' ih =>
    intro p rest hch
    replace hch : List.Chain' (adjS st) (p :: a :: (t' ++ rest)) := by simpa using hch
    rw [List.chain'_cons] at hch
    exact ⟨hch.1.2, ih (by simpa using hch.2)⟩

theorem prevLink_congr {st st' : Nat → EdgeRec}
    (h : ∀ x, (st' x).prev = (st x).prev) :
    ∀ {p : Nat} {t : List Nat}, prevLink st p t → prevLink st' p t := by
  intro p t
  induction t generalizing p with
  | nil => intro _; trivial
  | cons a t' ih => exact fun hp => ⟨(h a).trans hp.1, ih hp.2⟩

/-- The arc-length law along a traversal: each element's cumulative length is
its predecessor's plus the predecessor's shape length. -/
def arcChain (len : Shape → ℚ) (st : Nat → EdgeRec) : Nat → List Nat → Prop
  | _, [] => True
  | p, a :: t =>
      (st a).arc_length = (st p).arc_length + len ((st p).shape) ∧ arcChain len st a t

theorem salStep_at_ne_first (len : Shape → ℚ) (first : Nat) (stc : Nat → EdgeRec)
    (a : Nat) (ha : a ≠ first) :
    (salStep len first stc a) a
      = { (stc a) with
            arc_length := (stc ((stc a).prev)).arc_length + len ((stc ((stc a).prev)).shape)
            faceSet := true } := by
  simp [salStep, upd, ha]

theorem salStep_frame (len : Shape → ℚ) (first : Nat) (stc : Nat → EdgeRec)
    (a x : Nat) (hx : x ≠ a) : (salStep len first stc a) x = stc x := by
  by_cases ha : a = first
  · subst ha; simp [salStep, upd, hx]
  · simp [salStep, upd, hx, ha]

theorem salStep_prev (len : Shape → ℚ) (first : Nat) (stc : Nat → EdgeRec) (a : Nat) :
    ∀ x, ((salStep len first stc a) x).prev = (stc x).prev := by
  intro x
  by_cases hx : x = a
  · subst hx
    by_cases ha : x = first <;> simp [salStep, upd, ha]
  · by_cases ha : a = first
    · subst ha; simp [salStep, upd, hx]
    · simp [salStep, upd, hx, ha]

theorem fold_sal (len : Shape → ℚ) (first : Nat) :
    ∀ (t : List Nat) (stc : Nat → EdgeRec) (p : Nat),
      t.Nodup → p ∉ t → first ∉ t → prevLink stc p t →
      (∀ x, x ∉ t → t.foldl (salStep len first) stc x = stc x) ∧
      arcChain len (t.foldl (salStep len first) stc) p t ∧
      (∀ x ∈ t, ((t.foldl (salStep len first) stc) x).faceSet = true) := by
  intro t
  induction t with
  | nil => exact fun stc p _ _ _ _ => ⟨fun x _ => rfl, trivial, by simp⟩
  | cons a t' ih =>
    intro stc p hnd hp hf hpl
    have ha1 : a ≠ first := fun he => hf (he ▸ List.mem_cons_self _ _)
    have hat' : a ∉ t' := (List.nodup_cons.mp hnd).1
    have hpa : p ≠ a := fun he => hp (he ▸ List.mem_cons_self _ _)
    have hst2a : (salStep len first stc a) a
        = { (stc a) with
              arc_length := (stc p).arc_length + len ((stc p).shape)
              faceSet := true } := by
      rw [salStep_at_ne_first len first stc a ha1, hpl.1]
    obtain ⟨hfr, harc, hface⟩ := ih (salStep len first stc a) a
      (List.nodup_cons.mp hnd).2 hat'
      (fun hm => hf (List.mem_cons_of_mem _ hm))
      (prevLink_congr (salStep_prev len first stc a) hpl.2)
    have hfold : (a :: t').foldl (salStep len first) stc
        = t'.foldl (salStep len first) (salStep len first stc a) := rfl
    rw [hfold]
    refine ⟨?_, ⟨?_, harc⟩, ?_⟩
    · intro x hx
      rw [hfr x (fun hm => hx (List.mem_cons_of_mem _ hm)),
        salStep_frame len first stc a x (fun he => hx (he ▸ List.mem_cons_self _ _))]
    · rw [hfr a hat', hst2a, hfr p (fun hm => hp (List.mem_cons_of_mem _ hm)),
        salStep_frame len first stc a p hpa]
    · intro x hx
      rcases List.mem_cons.mp hx with rfl | hx'
      · rw [hfr x hat', hst2a]
      · exact hface x hx'

/-- C2.  Immediately after `setArcLength()`: the first edge's `arc_length` is
`0`, each subsequent edge's `arc_length` is its predecessor's plus the
predecessor's length, and every edge's face back-reference is set. -/
theorem c2_setArcLength (len : Shape → ℚ) (fuel : Nat) (s : FaceState) (l : List Nat)
    (hl : isLoop s l) (hfuel : l.length ≤ fuel) :
    ((setArcLengthE len fuel s).store l.headI).arc_length = 0 ∧
    arcChain len (setArcLengthE len fuel s).store l.headI l.tail ∧
    (∀ x ∈ l, ((setArcLengthE len fuel s).store x).faceSet = true) := by
  have hwrap := isLoop_wrap hl
  obtain ⟨hne, hnd, hent, hch⟩ := hl
  cases l with
  | nil => exact absurd rfl hne
  | cons f t =>
    have htrav : travAux s.store f f fuel = f :: t := by
      have h1 : traverseF s fuel = f :: t := traverseF_eq ⟨hne, hnd, hent, hch⟩ hfuel
      have h2 : traverseF s fuel = travAux s.store f f fuel := by
        unfold traverseF
        rw [hent]
        rfl
      rw [← h2, h1]
    have hunf : (setArcLengthE len fuel s).store
        = (travAux s.store f f fuel).foldl (salStep len f) s.store := by
      unfold setArcLengthE
      rw [hent]
      rfl
    rw [hunf, htrav]
    have hst2f : (salStep len f s.store f) f
        = { (s.store f) with arc_length := 0, faceSet := true } := by
      simp [salStep, upd]
    have hft : f ∉ t := (List.nodup_cons.mp hnd).1
    obtain ⟨hfr, harc, hface⟩ := fold_sal len f t (salStep len f s.store f) f
      (List.nodup_cons.mp hnd).2 hft hft
      (prevLink_congr (salStep_prev len f s.store f)
        (@chain_prevLink _ t f [(f :: t).headI] hch))
    have hfold : (f :: t).foldl (salStep len f) s.store
        = t.foldl (salStep len f) (salStep len f s.store f) := rfl
    rw [hfold]
    refine ⟨?_, by simpa using harc, ?_⟩
    · rw [List.headI_cons, hfr f hft, hst2f]
    · intro x hx
      rcases List.mem_cons.mp hx with rfl | hx'
      · rw [hfr x hft, hst2f]
      · exact hface x hx'

/-- Witness for C2 on a concrete two-edge face. -/
theorem c2_setArcLength_witness :
    ((setArcLengthE lenOne 2 (appendE lenOne (appendE lenOne emptyFace 0) 1)).store
      (([0, 1] : List Nat).headI)).arc_length = 0 ∧
    arcChain lenOne
      (setArcLengthE lenOne 2 (appendE lenOne (appendE lenOne emptyFace 0) 1)).store
      (([0, 1] : List Nat).headI) ([0, 1] : List Nat).tail ∧
    (∀ x ∈ ([0, 1] : List Nat),
      ((setArcLengthE lenOne 2 (appendE lenOne (appendE lenOne emptyFace 0) 1)).store
        x).faceSet = true) :=
  c2_setArcLength lenOne 2 (appendE lenOne (appendE lenOne emptyFace 0) 1) [0, 1]
    (by decide) (by decide)

/-- Under the loop invariant, an edge's `next` stays inside the loop. -/
theorem isLoop_next_mem {s : FaceState} {l : List Nat} (hl : isLoop s l)
    {e : Nat} (he : e ∈ l) : (s.store e).next ∈ l := by
  have hwrap := isLoop_wrap hl
  obtain ⟨hne, hnd, hent, hch⟩ := hl
  obtain ⟨l1, l2, rfl⟩ := List.append_of_mem he
  cases l2 with
  | nil =>
    have hlast : lastE (l1 ++ [e]) = e := lastE_concat _ _
    have h1 := hwrap.1
    rw [hlast] at h1
    rw [h1]
    exact headI_mem hne
  | cons c t =>
    have hch' : List.Chain' (adjS s.store)
        (l1 ++ e :: c :: (t ++ [(l1 ++ e :: c :: t).headI])) := by
      simpa [List.append_assoc] using hch
    obtain ⟨_, hec, _⟩ := List.chain'_append_cons_cons.mp hch'
    rw [hec.1]
    exact List.mem_append_right _ (List.mem_cons_of_mem _ (List.mem_cons_self _ _))

/-- C8.  `insert(edges, newEdge, edgeBefore)` with `edgeBefore` in the face
sets `arc_length` only for the new edge: every other edge's `arc_length` is
unchanged (including edges downstream of the insertion point, which thereby
keep their now-stale values). -/
theorem c8_insert_arc_frame (len : Shape → ℚ) (s : FaceState) (l : List Nat)
    (id eb j : Nat) (hl : isLoop s l) (heb : eb ∈ l) (hid : id ∉ l) (hj : j ≠ id) :
    ((insertE len s id eb).store j).arc_length = (s.store j).arc_length ∧
    ((insertE len s id eb).store id).arc_length
      = (if eb = lastE l then 0
         else (s.store eb).arc_length + len ((s.store eb).shape)) := by
  have hent := hl.2.2.1
  have hie : id ≠ eb := fun he => hid (he ▸ heb)
  have hiea : id ≠ (s.store eb).next := fun he => hid (he ▸ isLoop_next_mem hl heb)
  obtain ⟨_, _, _, _, _, _, _, _, harcfr, harcid, _, _, _, _⟩ :=
    insertE_spec len s id eb l.headI (lastE l) hent hie hiea
  exact ⟨harcfr j hj, harcid⟩

/-- Witness for C8 on a concrete two-edge face. -/
theorem c8_insert_arc_frame_witness :
    ((insertE lenOne (appendE lenOne (appendE lenOne emptyFace 0) 1) 2 0).store
      1).arc_length
      = ((appendE lenOne (appendE lenOne emptyFace 0) 1).store 1).arc_length ∧
    ((insertE lenOne (appendE lenOne (appendE lenOne emptyFace 0) 1) 2 0).store
      2).arc_length
      = (if 0 = lastE [0, 1] then 0
         else ((appendE lenOne (appendE lenOne emptyFace 0) 1).store 0).arc_length
           + lenOne (((appendE lenOne (appendE lenOne emptyFace 0) 1).store 0).shape)) :=
  c8_insert_arc_frame lenOne (appendE lenOne (appendE lenOne emptyFace 0) 1) [0, 1]
    2 0 1 (by decide) (by decide) (by decide) (by decide)

namespace Utils

/-- Modelled from the spec: the shared numeric-utility tolerance policy is an
external, unspecified constant; it is fixed here as `10⁻⁶` (any positive value
works for the theorems below). -/
def DP_TOL : ℚ := 1 / 1000000

/-- Modelled from the spec: tolerance-based zero test. -/
def EQ_0 (x : ℚ) : Bool := |x| < DP_TOL

/-- Modelled from the spec: tolerance-based less-than. -/
def LT (x y : ℚ) : Bool := x - y < -DP_TOL

end Utils

/-- Modelled from the spec: the shape primitive's definite line integral
relative to a reference ordinate, realizing the Green's-theorem area formula:
for a segment, `∫ (y − ymin) dx` (trapezoid rule is exact).  The arc case is an
external primitive the spec does not specify; no theorem below depends on it,
and it is set to `0` here. -/
def defInt : Shape → ℚ → ℚ
  | .seg ps pe, ymin => (pe.x - ps.x) * (((ps.y - ymin) + (pe.y - ymin)) / 2)
  | .arc _ _ _, _ => 0

/-- Merge of the edges' boxes, folded in traversal order.  Modelled from the
spec for the empty start (`new Box()` merged into is the identity). -/
def boxFold (st : Nat → EdgeRec) (t : List Nat) : Option BoxQ :=
  t.foldl (fun ob e =>
    some (match ob with
      | none => shapeBox ((st e).shape)
      | some bb => boxMerge bb (shapeBox ((st e).shape)))) none

/-- The `box` getter: lazily computed union of the edges' boxes, cached. -/
def boxE (fuel : Nat) (s : FaceState) : BoxQ × FaceState :=
  match s.boxCache with
  | some b => (b, s)
  | none =>
      let b := match boxFold s.store (traverseF s fuel) with
               | none => ⟨0, 0, 0, 0⟩
               | some bb => bb
      (b, { s with boxCache := some b })

/-- `signedArea()`: sum of each edge shape's definite integral relative to the
face box's minimum y-ordinate.  `dint` is the external integral capability
(`defInt` is its spec-modelled instance). -/
def signedAreaE (dint : Shape → ℚ → ℚ) (fuel : Nat) (s : FaceState) : ℚ × FaceState :=
  let p := boxE fuel s
  ((traverseF p.2 fuel).foldl (fun acc e => acc + dint ((p.2.store e).shape) p.1.ymin) 0,
    p.2)

/-- `area()`: absolute value of the signed area. -/
def areaE (dint : Shape → ℚ → ℚ) (fuel : Nat) (s : FaceState) : ℚ × FaceState :=
  let p := signedAreaE dint fuel s
  (|p.1|, p.2)

/-- `orientation()`: classify the signed area's sign (tolerance-based) into
CW / CCW / NOT_ORIENTABLE; cached after the first computation. -/
def orientationE (dint : Shape → ℚ → ℚ) (fuel : Nat) (s : FaceState) :
    Orient × FaceState :=
  match s.orientCache with
  | some o => (o, s)
  | none =>
      let p := signedAreaE dint fuel s
      let o := if Utils.EQ_0 p.1 then Orient.NOT_ORIENTABLE
               else if Utils.LT p.1 0 then Orient.CCW
               else Orient.CW
      (o, { p.2 with orientCache := some o })

/-- The collection phase of `reverse()`: walk backwards (`prev`) from `last`,
reversing each visited edge's shape, until the walk returns to `last`. -/
def revWalk (st : Nat → EdgeRec) (stop : Nat) : Nat → Nat → ((Nat → EdgeRec) × List Nat)
  | _, 0 => (st, [])
  | cur, fuel + 1 =>
      let st' := upd st cur (fun r => { r with shape := r.shape.reverse })
      let nxt := (st' cur).prev
      if nxt = stop then (st', [cur])
      else
        let p := revWalk st' stop nxt fuel
        (p.1, cur :: p.2)

/-- The relink phase of `reverse()`: the body of its rebuild loop, which is the
`append` splice without the face back-reference assignment and without the
spatial-index registration. -/
def rebuildStep (len : Shape → ℚ) (s : FaceState) (id : Nat) : FaceState :=
  match s.entry with
  | none =>
      let st1 := upd s.store id (fun r => { r with prev := id })
      let st2 := upd st1 id (fun r => { r with next := id })
      let st3 := upd st2 id (fun r => { r with arc_length := 0 })
      { s with store := st3, entry := some (id, id) }
  | some (f, lst) =>
      let st1 := upd s.store id (fun r => { r with prev := lst })
      let st2 := upd st1 lst (fun r => { r with next := id })
      let st3 := upd st2 id (fun r => { r with next := f })
      let st4 := upd st3 f (fun r => { r with prev := id })
      let st5 := upd st4 id (fun r =>
        { r with arc_length := (st4 (st4 id).prev).arc_length + len (st4 (st4 id).prev).shape })
      { s with store := st5, entry := some (f, id) }

/-- `reverse()`: collect the edges backwards with reversed shapes, relink the
loop from scratch in that order, recompute arc lengths, and recompute the
orientation cache if it was set.  `none` is the error branch: on an empty face
the source dereferences the absent `this.last` (a TypeError). -/
def reverseE (len : Shape → ℚ) (dint : Shape → ℚ → ℚ) (fuel : Nat) (s : FaceState) :
    Option FaceState :=
  match s.entry with
  | none => none
  | some (_, lst) =>
      let p := revWalk s.store lst lst fuel
      let s1 : FaceState :=
        { store := p.1, entry := none, boxCache := s.boxCache,
          orientCache := s.orientCache }
      let s2 := p.2.foldl (rebuildStep len) s1
      match s2.orientCache with
      | none => some s2
      | some _ => some (orientationE dint fuel { s2 with orientCache := none }).2

theorem rebuildStep_caches (len : Shape → ℚ) (s : FaceState) (id : Nat) :
    (rebuildStep len s id).orientCache = s.orientCache ∧
    (rebuildStep len s id).boxCache = s.boxCache := by
  cases h : s.entry with
  | none => simp [rebuildStep, h]
  | some pr => cases pr; simp [rebuildStep, h]

theorem rebuild_fold_caches (len : Shape → ℚ) :
    ∀ (es : List Nat) (s : FaceState),
      (es.foldl (rebuildStep len) s).orientCache = s.orientCache ∧
      (es.foldl (rebuildStep len) s).boxCache = s.boxCache := by
  intro es
  induction es with
  | nil => exact fun s => ⟨rfl, rfl⟩
  | cons a t ih =>
    intro s
    have h1 := rebuildStep_caches len s a
    have h2 := ih (rebuildStep len s a)
    exact ⟨h2.1.trans h1.1, h2.2.trans h1.2⟩

theorem boxE_frame (fuel : Nat) (s : FaceState) :
    (boxE fuel s).2.store = s.store ∧ (boxE fuel s).2.entry = s.entry ∧
    (boxE fuel s).2.orientCache = s.orientCache := by
  cases h : s.boxCache with
  | none => simp [boxE, h]
  | some b => simp [boxE, h]

theorem signedAreaE_frame (dint : Shape → ℚ → ℚ) (fuel : Nat) (s : FaceState) :
    (signedAreaE dint fuel s).2.store = s.store ∧
    (signedAreaE dint fuel s).2.entry = s.entry ∧
    (signedAreaE dint fuel s).2.orientCache = s.orientCache := by
  have := boxE_frame fuel s
  simpa [signedAreaE] using this

theorem orientationE_frame (dint : Shape → ℚ → ℚ) (fuel : Nat) (s : FaceState) :
    (orientationE dint fuel s).2.store = s.store ∧
    (orientationE dint fuel s).2.entry = s.entry := by
  cases h : s.orientCache with
  | some o => simp [orientationE, h]
  | none =>
    have := signedAreaE_frame dint fuel s
    simp [orientationE, h]
    exact ⟨this.1, this.2.1⟩

theorem hDP_pos : (0 : ℚ) < Utils.DP_TOL := by norm_num [Utils.DP_TOL]

/-- C3.  `orientation()` classifies the signed area with tolerance-based
comparisons — within tolerance of zero: NOT_ORIENTABLE; tolerance-negative:
CCW; tolerance-positive: CW — the result is cached after the first
computation, a cached value is returned unchanged, and the cache is left
untouched by `append` / `insert` / `remove` / `setArcLength` and recomputed
only by `reverse`. -/
theorem c3_orientation (len : Shape → ℚ) (dint : Shape → ℚ → ℚ) (fuel : Nat)
    (s : FaceState) (id eb e : Nat) :
    (∀ o, s.orientCache = some o → orientationE dint fuel s = (o, s)) ∧
    (s.orientCache = none →
      (|(signedAreaE dint fuel s).1| < Utils.DP_TOL →
        (orientationE dint fuel s).1 = Orient.NOT_ORIENTABLE) ∧
      ((signedAreaE dint fuel s).1 < -Utils.DP_TOL →
        (orientationE dint fuel s).1 = Orient.CCW) ∧
      (Utils.DP_TOL ≤ (signedAreaE dint fuel s).1 →
        (orientationE dint fuel s).1 = Orient.CW) ∧
      (orientationE dint fuel s).2.orientCache = some (orientationE dint fuel s).1) ∧
    ((appendE len s id).orientCache = s.orientCache) ∧
    ((insertE len s id eb).orientCache = s.orientCache) ∧
    ((removeE s e).orientCache = s.orientCache) ∧
    ((setArcLengthE len fuel s).orientCache = s.orientCache) ∧
    (∀ s', reverseE len dint fuel s = some s' →
      (s.orientCache = none → s'.orientCache = none) ∧
      (s.orientCache ≠ none → (s'.orientCache).isSome = true)) := by
  refine ⟨?_, ?_, ?_, ?_, ?_, ?_, ?_⟩
  · intro o ho
    simp [orientationE, ho]
  · intro hnone
    refine ⟨?_, ?_, ?_, ?_⟩
    · intro h
      simp [orientationE, hnone, Utils.EQ_0, h]
    · intro h
      have h0 : ¬(|(signedAreaE dint fuel s).1| < Utils.DP_TOL) := by
        rw [abs_lt]
        push_neg
        intro hc
        linarith
      simp [orientationE, hnone, Utils.EQ_0, Utils.LT, h0, h]
    · intro h
      have h0 : ¬(|(signedAreaE dint fuel s).1| < Utils.DP_TOL) := by
        rw [abs_lt]
        push_neg
        intro _
        exact h
      have h1 : ¬((signedAreaE dint fuel s).1 - 0 < -Utils.DP_TOL) := by
        have := hDP_pos
        intro hc
        linarith
      simp [orientationE, hnone, Utils.EQ_0, Utils.LT, h0, h1]
      linarith [hDP_pos]
    · simp [orientationE, hnone]
  · cases h : s.entry with
    | none => simp [appendE, h]
    | some pr => cases pr; simp [appendE, h]
  · cases h : s.entry with
    | none => simp [insertE, h]
    | some pr => cases pr; simp [insertE, h]
  · unfold removeE
    split <;> rfl
  · cases h : s.entry with
    | none => simp [setArcLengthE, h]
    | some pr => cases pr; simp [setArcLengthE, h]
  · intro s' hrev
    cases hent : s.entry with
    | none => simp [reverseE, hent] at hrev
    | some pr =>
      obtain ⟨f, lst⟩ := pr
      have hfold := rebuild_fold_caches len
        (revWalk s.store lst lst fuel).2
        { store := (revWalk s.store lst lst fuel).1, entry := none,
          boxCache := s.boxCache, orientCache := s.orientCache }
      constructor
      · intro hnone
        have hcache : ((revWalk s.store lst lst fuel).2.foldl (rebuildStep len)
            { store := (revWalk s.store lst lst fuel).1, entry := none,
              boxCache := s.boxCache, orientCache := s.orientCache }).orientCache
            = none := by rw [hfold.1, hnone]
        simp only [reverseE, hent] at hrev
        rw [hcache] at hrev
        injection hrev with hrev
        rw [← hrev, hcache]
      · intro hsome
        obtain ⟨o, ho⟩ := Option.ne_none_iff_exists'.mp hsome
        have hcache : ((revWalk s.store lst lst fuel).2.foldl (rebuildStep len)
            { store := (revWalk s.store lst lst fuel).1, entry := none,
              boxCache := s.boxCache, orientCache := s.orientCache }).orientCache
            = some o := by rw [hfold.1, ho]
        simp only [reverseE, hent] at hrev
        rw [hcache] at hrev
        injection hrev with hrev
        rw [← hrev]
        simp [orientationE]

/-- Witness for C3: a concrete uncached face classified NOT_ORIENTABLE (its
degenerate default shapes have zero integral) and the append frame. -/
theorem c3_orientation_witness :
    (orientationE defInt 2 (appendE lenOne (appendE lenOne emptyFace 0) 1)).1
      = Orient.NOT_ORIENTABLE ∧
    (appendE lenOne (appendE lenOne (appendE lenOne emptyFace 0) 1) 5).orientCache
      = (appendE lenOne (appendE lenOne emptyFace 0) 1).orientCache := by
  have hval : (signedAreaE defInt 2 (appendE lenOne (appendE lenOne emptyFace 0) 1)).1
      = 0 := by
    norm_num [signedAreaE, boxE, boxFold, traverseF, travAux, appendE, emptyFace, upd,
      defInt, shapeBox, boxMerge]
  refine ⟨((c3_orientation lenOne defInt 2 (appendE lenOne (appendE lenOne emptyFace 0) 1)
      5 0 0).2.1 (by decide)).1 ?_,
    (c3_orientation lenOne defInt 2 (appendE lenOne (appendE lenOne emptyFace 0) 1)
      5 0 0).2.2.1⟩
  rw [hval]
  norm_num [Utils.DP_TOL]

/-- C10.  `reverse()` dereferences `this.last` immediately, so on an empty face
(absent entry references) the total embedding takes its error branch (`none`);
under the precondition that the face is nonempty (it satisfies the loop
invariant) that branch is unreachable and the call produces a state. -/
theorem c10_reverse_nonempty (len : Shape → ℚ) (dint : Shape → ℚ → ℚ) (fuel : Nat)
    (s : FaceState) (l : List Nat) :
    (s.entry = none → reverseE len dint fuel s = none) ∧
    (isLoop s l → (reverseE len dint fuel s).isSome = true) := by
  constructor
  · intro h
    simp [reverseE, h]
  · intro hl
    have hent := hl.2.2.1
    cases hcache : ((revWalk s.store (lastE l) (lastE l) fuel).2.foldl (rebuildStep len)
        { store := (revWalk s.store (lastE l) (lastE l) fuel).1, entry := none,
          boxCache := s.boxCache, orientCache := s.orientCache }).orientCache with
    | none => simp [reverseE, hent, hcache]
    | some o => simp [reverseE, hent, hcache]

/-- Witness for C10: the empty face errors, a two-edge face succeeds. -/
theorem c10_reverse_nonempty_witness :
    reverseE lenOne defInt 2 emptyFace = none ∧
    (reverseE lenOne defInt 2 (appendE lenOne (appendE lenOne emptyFace 0) 1)).isSome
      = true :=
  ⟨(c10_reverse_nonempty lenOne defInt 2 emptyFace []).1 rfl,
   (c10_reverse_nonempty lenOne defInt 2
      (appendE lenOne (appendE lenOne emptyFace 0) 1) [0, 1]).2 (by decide)⟩

/-- Backward links along a walk list: each element's `prev` is the next list
element, and the final element's `prev` is `stop`. -/
def prevWalkLink (st : Nat → EdgeRec) : List Nat → Nat → Prop
  | [], _ => True
  | [a], stop => (st a).prev = stop
  | a :: b :: t, stop => (st a).prev = b ∧ prevWalkLink st (b :: t) stop

theorem prevWalkLink_congr {st st' : Nat → EdgeRec}
    (h : ∀ x, (st' x).prev = (st x).prev) :
    ∀ {ys : List Nat} {stop : Nat}, prevWalkLink st ys stop → prevWalkLink st' ys stop
  | [], _, _ => trivial
  | [a], stop, hp => (h a).trans hp
  | _ :: _ :: _, _, hp => ⟨(h _).trans hp.1, prevWalkLink_congr h hp.2⟩

theorem prevWalkLink_snoc {st : Nat → EdgeRec} {stop p : Nat} :
    ∀ {ys : List Nat}, prevWalkLink st ys p → (st p).prev = stop →
      prevWalkLink st (ys ++ [p]) stop
  | [], _, hp => hp
  | [a], hw, hp => ⟨hw, hp⟩
  | _ :: _ :: _, hw, hp => ⟨hw.1, prevWalkLink_snoc hw.2 hp⟩

theorem prevLink_rev {st : Nat → EdgeRec} :
    ∀ {t : List Nat} {p stop : Nat}, prevLink st p t → (st p).prev = stop →
      prevWalkLink st ((p :: t).reverse) stop := by
  intro t
  induction t with
  | nil => intro p stop _ hp; simpa [prevWalkLink] using hp
  | cons a t' ih =>
    intro p stop hpl hp
    have : (p :: a :: t').reverse = (a :: t').reverse ++ [p] := by simp
    rw [this]
    exact prevWalkLink_snoc (ih hpl.2 hpl.1) hp

theorem headI_reverse {l : List Nat} (h : l ≠ []) : l.reverse.headI = lastE l := by
  have h1 : l.reverse.head? = l.getLast? := List.head?_reverse l
  rw [getLast?_eq_lastE h] at h1
  have h2 : l.reverse ≠ [] := by simpa using h
  rw [head?_eq_some_headI h2] at h1
  injection h1

/-- The collection walk of `reverse()`: starting at the head of `ys` (walking
by `prev`, stopping when `prev` reaches `stop`), it visits exactly `ys` and
reverses exactly the shapes of the visited edges. -/
theorem revWalk_spec {stop : Nat} :
    ∀ (ys : List Nat) (st : Nat → EdgeRec) (fuel : Nat), ys ≠ [] → ys.Nodup →
      stop ∉ ys.tail → prevWalkLink st ys stop → ys.length ≤ fuel →
      (revWalk st stop ys.headI fuel).2 = ys ∧
      (∀ x, (revWalk st stop ys.headI fuel).1 x
        = if x ∈ ys then { (st x) with shape := ((st x).shape).reverse } else st x) := by
  intro ys
  induction ys with
  | nil => intro st fuel h; exact absurd rfl h
  | cons a t ih =>
    intro st fuel _ hnd hstop hwl hfuel
    match fuel, hfuel with
    | m + 1, hf =>
      cases t with
      | nil =>
        have hprev : (st a).prev = stop := hwl
        constructor
        · simp [revWalk, upd_same, hprev]
        · intro x
          by_cases hx : x = a
          · subst hx; simp [revWalk, upd_same, hprev, upd]
          · simp [revWalk, upd_same, hprev, upd, hx]
      | cons b t' =>
        have hab : (st a).prev = b := hwl.1
        have hbstop : b ≠ stop := by
          intro hEq
          exact hstop (hEq ▸ List.mem_cons_self _ _)
        have hat : a ∉ b :: t' := (List.nodup_cons.mp hnd).1
        obtain ⟨ihl, ihst⟩ := ih (upd st a (fun r => { r with shape := r.shape.reverse })) m
          (by simp) (List.nodup_cons.mp hnd).2 (fun hm => hstop (List.mem_cons_of_mem _ hm))
          (prevWalkLink_congr (fun x => by
            by_cases hx : x = a
            · subst hx; rw [upd_same]
            · rw [upd_other _ _ _ _ hx]) hwl.2)
          (by simpa using Nat.succ_le_succ_iff.mp hf)
        have hstep : revWalk st stop a (m + 1)
            = ((revWalk (upd st a (fun r => { r with shape := r.shape.reverse })) stop b m).1,
               a :: (revWalk (upd st a (fun r => { r with shape := r.shape.reverse }))
                 stop b m).2) := by
          simp only [revWalk, upd_same, hab]
          rw [if_neg hbstop]
        simp only [List.headI_cons] at ihl ihst
        rw [List.headI_cons, hstep]
        constructor
        · simp [ihl]
        · intro x
          rw [ihst x]
          by_cases hx1 : x = a
          · subst hx1
            simp [hat, upd_same]
          · by_cases hx2 : x ∈ b :: t'
            · simp [hx2, upd_other _ _ _ _ hx1, List.mem_cons_of_mem _ hx2]
            · have : x ∉ a :: b :: t' := by
                intro hm
                rcases List.mem_cons.mp hm with hEq | hm'
                · exact hx1 hEq
                · exact hx2 hm'
              simp [hx2, this, upd_other _ _ _ _ hx1]
set_option maxRecDepth 2000 in
/-- `rebuildStep` (the relink body of `reverse()`) on a nonempty face:
full pointwise description of the result. -/
theorem rebuildStep_spec (len : Shape → ℚ) (s : FaceState) (id f lst : Nat)
    (h : s.entry = some (f, lst)) (hif : id ≠ f) (hil : id ≠ lst) :
    (rebuildStep len s id).entry = some (f, id) ∧
    ((rebuildStep len s id).store id).prev = lst ∧
    ((rebuildStep len s id).store id).next = f ∧
    ((rebuildStep len s id).store f).prev = id ∧
    ((rebuildStep len s id).store lst).next = id ∧
    (∀ j, j ≠ id → j ≠ lst → ((rebuildStep len s id).store j).next = (s.store j).next) ∧
    (∀ j, j ≠ id → j ≠ f → ((rebuildStep len s id).store j).prev = (s.store j).prev) ∧
    (∀ j, ((rebuildStep len s id).store j).shape = (s.store j).shape) ∧
    (∀ j, j ≠ id → ((rebuildStep len s id).store j).arc_length = (s.store j).arc_length) ∧
    ((rebuildStep len s id).store id).arc_length
      = (s.store lst).arc_length + len ((s.store lst).shape) ∧
    (∀ j, ((rebuildStep len s id).store j).faceSet = (s.store j).faceSet) ∧
    (rebuildStep len s id).boxCache = s.boxCache ∧
    (rebuildStep len s id).orientCache = s.orientCache := by
  have hfi : f ≠ id := Ne.symm hif
  have hli : lst ≠ id := Ne.symm hil
  refine ⟨?_, ?_, ?_, ?_, ?_, ?_, ?_, ?_, ?_, ?_, ?_, ?_, ?_⟩
  · simp [rebuildStep, h]
  · simp [rebuildStep, h, upd, hif, hil, hfi, hli]
  · simp [rebuildStep, h, upd, hif, hil, hfi, hli]
  · by_cases hfl : f = lst
    · subst hfl; simp [rebuildStep, h, upd, hif, hfi]
    · simp [rebuildStep, h, upd, hif, hil, hfi, hli, hfl, Ne.symm hfl]
  · by_cases hfl : f = lst
    · subst hfl; simp [rebuildStep, h, upd, hif, hfi]
    · simp [rebuildStep, h, upd, hif, hil, hfi, hli, hfl, Ne.symm hfl]
  · intro j hj1 hj2
    by_cases hjf : j = f
    · subst hjf; simp [rebuildStep, h, upd, hj1, hj2]
    · simp [rebuildStep, h, upd, hj1, hj2, hjf]
  · intro j hj1 hj2
    by_cases hjl : j = lst
    · subst hjl; simp [rebuildStep, h, upd, hj1, hj2]
    · simp [rebuildStep, h, upd, hj1, hj2, hjl]
  · intro j
    by_cases hj1 : j = id
    · subst hj1
      by_cases hfl : f = lst
      · subst hfl; simp [rebuildStep, h, upd, hif, hfi]
      · simp [rebuildStep, h, upd, hif, hil, hfi, hli, hfl, Ne.symm hfl]
    · by_cases hjf : j = f
      · subst hjf
        by_cases hjl : j = lst
        · subst hjl; simp [rebuildStep, h, upd, hj1, hif, hil, hfi, hli]
        · simp [rebuildStep, h, upd, hj1, hjl, hif, hil, hfi, hli, Ne.symm hjl]
      · by_cases hjl : j = lst
        · subst hjl; simp [rebuildStep, h, upd, hj1, hjf, hif, hil, hfi, hli, Ne.symm hjf]
        · simp [rebuildStep, h, upd, hj1, hjf, hjl]
  · intro j hj
    by_cases hjf : j = f
    · subst hjf
      by_cases hjl : j = lst
      · subst hjl; simp [rebuildStep, h, upd, hj, hif, hil, hfi, hli]
      · simp [rebuildStep, h, upd, hj, hjl, hif, hil, hfi, hli, Ne.symm hjl]
    · by_cases hjl : j = lst
      · subst hjl; simp [rebuildStep, h, upd, hj, hjf, hif, hil, hfi, hli, Ne.symm hjf]
      · simp [rebuildStep, h, upd, hj, hjf, hjl]
  · by_cases hfl : f = lst
    · subst hfl; simp [rebuildStep, h, upd, hif, hfi]
    · simp [rebuildStep, h, upd, hif, hil, hfi, hli, hfl, Ne.symm hfl]
  · intro j
    by_cases hj : j = id
    · subst hj; simp [rebuildStep, h, upd, hif, hil, hfi, hli]
    · by_cases hjf : j = f
      · subst hjf
        by_cases hjl : j = lst
        · subst hjl; simp [rebuildStep, h, upd, hj, hif, hil, hfi, hli]
        · simp [rebuildStep, h, upd, hj, hjl, hif, hil, hfi, hli, Ne.symm hjl]
      · by_cases hjl : j = lst
        · subst hjl; simp [rebuildStep, h, upd, hj, hjf, hif, hil, hfi, hli, Ne.symm hjf]
        · simp [rebuildStep, h, upd, hj, hjf, hjl]
  · simp [rebuildStep, h]
  · simp [rebuildStep, h]
/-- `rebuildStep` on an empty face creates a one-edge self-loop with arc length 0. -/
theorem rebuildStep_empty (len : Shape → ℚ) (s : FaceState) (id : Nat) (h : s.entry = none) :
    isLoop (rebuildStep len s id) [id] ∧
    ((rebuildStep len s id).store id).arc_length = 0 ∧
    (∀ j, ((rebuildStep len s id).store j).shape = (s.store j).shape) ∧
    (∀ j, j ≠ id → (rebuildStep len s id).store j = s.store j) ∧
    (rebuildStep len s id).boxCache = s.boxCache ∧
    (rebuildStep len s id).orientCache = s.orientCache := by
  refine ⟨⟨by simp, by simp, ?_, ?_⟩, ?_, ?_, ?_, by simp [rebuildStep, h], by simp [rebuildStep, h]⟩
  · simp [rebuildStep, h, lastE]
  · simp only [rebuildStep, h]
    refine List.chain'_cons.mpr ⟨⟨?_, ?_⟩, List.chain'_singleton _⟩ <;>
      simp [upd]
  · simp [rebuildStep, h, upd]
  · intro j
    by_cases hj : j = id
    · subst hj; simp [rebuildStep, h, upd]
    · simp [rebuildStep, h, upd, hj]
  · intro j hj
    simp [rebuildStep, h, upd, hj]

/-- The rebuild splice of a fresh edge onto a face satisfying the loop
invariant extends the representing list at the back. -/
theorem rebuildStep_isLoop {len : Shape → ℚ} {s : FaceState} {l : List Nat} {id : Nat}
    (hl : isLoop s l) (hid : id ∉ l) : isLoop (rebuildStep len s id) (l ++ [id]) := by
  obtain ⟨hne, hnd, hent, hch⟩ := hl
  have hif : id ≠ l.headI := fun he => hid (he ▸ headI_mem hne)
  have hil : id ≠ lastE l := fun he => hid (he ▸ lastE_mem hne)
  obtain ⟨hsent, hprevid, hnextid, hprevf, hnextl, hnfr, hpfr, _, _, _, _, _, _⟩ :=
    rebuildStep_spec len s id l.headI (lastE l) hent hif hil
  refine ⟨by simp, ?_, ?_, ?_⟩
  · rw [List.nodup_append]
    refine ⟨hnd, List.nodup_singleton _, ?_⟩
    intro a ha hb
    simp only [List.mem_singleton] at hb
    exact hid (hb ▸ ha)
  · rw [hsent, headI_append hne, lastE_concat]
  · rw [headI_append hne]
    have hassoc : (l ++ [id]) ++ [l.headI] = l ++ [id, l.headI] := by
      rw [List.append_assoc]; rfl
    rw [hassoc]
    refine List.chain'_append.mpr ⟨?_, ?_, ?_⟩
    · refine chain'_transfer (List.chain'_append.mp hch).1 ?_ ?_
      · intro a ha
        exact hnfr a (fun he => hid (he ▸ List.mem_of_mem_dropLast ha))
          (fun he => nodup_lastE_not_mem_dropLast hnd hne (he ▸ ha))
      · intro b hb
        exact hpfr b (fun he => hid (he ▸ List.mem_of_mem_tail hb))
          (fun he => nodup_headI_not_mem_tail hnd (he ▸ hb))
    · exact List.chain'_cons.mpr ⟨⟨hnextid, hprevf⟩, List.chain'_singleton _⟩
    · intro x hx y hy
      rw [getLast?_eq_lastE hne] at hx
      simp only [Option.mem_def, Option.some.injEq, List.head?_cons] at hx hy
      subst hx hy
      exact ⟨hnextl, hprevid⟩

theorem upd_arc_shape (st : Nat → EdgeRec) (i : Nat) (c : ℚ) (x : Nat) :
    ((upd st i (fun r => { r with arc_length := c })) x).shape = (st x).shape := by
  unfold upd
  split <;> rfl

theorem upd_prev_shape (st : Nat → EdgeRec) (i c x : Nat) :
    ((upd st i (fun r => { r with prev := c })) x).shape = (st x).shape := by
  unfold upd
  split <;> rfl

theorem upd_next_shape (st : Nat → EdgeRec) (i c x : Nat) :
    ((upd st i (fun r => { r with next := c })) x).shape = (st x).shape := by
  unfold upd
  split <;> rfl

theorem rebuildStep_shape (len : Shape → ℚ) (s : FaceState) (id : Nat) :
    ∀ x, ((rebuildStep len s id).store x).shape = (s.store x).shape := by
  intro x
  cases h : s.entry with
  | none =>
    simp only [rebuildStep, h]
    rw [upd_arc_shape, upd_next_shape, upd_prev_shape]
  | some pr =>
    obtain ⟨f, lst⟩ := pr
    simp only [rebuildStep, h]
    rw [upd_arc_shape, upd_prev_shape, upd_next_shape, upd_next_shape, upd_prev_shape]

theorem rebuild_fold_isLoop (len : Shape → ℚ) :
    ∀ (rest pre : List Nat) (s : FaceState),
      isLoop s pre → (pre ++ rest).Nodup →
      isLoop (rest.foldl (rebuildStep len) s) (pre ++ rest) ∧
      (∀ x, ((rest.foldl (rebuildStep len) s).store x).shape = (s.store x).shape) := by
  intro rest
  induction rest with
  | nil => exact fun pre s h _ => ⟨by simpa using h, fun x => rfl⟩
  | cons a rest' ih =>
    intro pre s hl hnd
    have hfresh : a ∉ pre := by
      obtain ⟨_, _, hdisj⟩ := List.nodup_append.mp hnd
      exact fun hm => hdisj hm (List.mem_cons_self _ _)
    have hstep := @rebuildStep_isLoop len _ _ _ hl hfresh
    have hnd' : ((pre ++ [a]) ++ rest').Nodup := by
      rw [List.append_assoc]
      simpa using hnd
    obtain ⟨hloop, hshape⟩ := ih (pre ++ [a]) (rebuildStep len s a) hstep hnd'
    constructor
    · have : (pre ++ [a]) ++ rest' = pre ++ a :: rest' := by simp
      rw [← this]
      exact hloop
    · intro x
      rw [List.foldl_cons, hshape x, rebuildStep_shape]

theorem rebuild_fold_from_empty (len : Shape → ℚ) (es : List Nat) (s : FaceState)
    (hent : s.entry = none) (hne : es ≠ []) (hnd : es.Nodup) :
    isLoop (es.foldl (rebuildStep len) s) es ∧
    (∀ x, ((es.foldl (rebuildStep len) s).store x).shape = (s.store x).shape) := by
  cases es with
  | nil => exact absurd rfl hne
  | cons a rest =>
    have h1 := rebuildStep_empty len s a hent
    obtain ⟨hloop, hshape⟩ := rebuild_fold_isLoop len rest [a] (rebuildStep len s a)
      h1.1 (by simpa using hnd)
    refine ⟨by simpa using hloop, ?_⟩
    intro x
    rw [List.foldl_cons, hshape x, rebuildStep_shape]

theorem isLoop_of_eq_parts {s s' : FaceState} (h1 : s'.store = s.store)
    (h2 : s'.entry = s.entry) {l : List Nat} (hl : isLoop s l) : isLoop s' l := by
  obtain ⟨a, b, c, d⟩ := hl
  exact ⟨a, b, h2 ▸ c, h1 ▸ d⟩

/-- One application of `reverse()` on a loop: succeeds, reverses the
representing list, and reverses exactly the shapes of the face's edges. -/
theorem reverseE_spec {len : Shape → ℚ} {dint : Shape → ℚ → ℚ} {fuel : Nat}
    {s : FaceState} {l : List Nat} (hl : isLoop s l) (hfuel : l.length ≤ fuel) :
    ∃ s', reverseE len dint fuel s = some s' ∧ isLoop s' l.reverse ∧
      (∀ x ∈ l, (s'.store x).shape = ((s.store x).shape).reverse) ∧
      (∀ x, x ∉ l → (s'.store x).shape = (s.store x).shape) := by
  have hwrap := isLoop_wrap hl
  have hent := hl.2.2.1
  have hne := hl.1
  have hnd := hl.2.1
  have hys_ne : l.reverse ≠ [] := by simpa using hne
  have hys_nd : l.reverse.Nodup := by simpa using hnd
  have hhead : l.reverse.headI = lastE l := headI_reverse hne
  have hstop_tail : lastE l ∉ l.reverse.tail := by
    rw [← hhead]
    exact nodup_headI_not_mem_tail hys_nd
  have hwl : prevWalkLink s.store l.reverse (lastE l) := by
    cases l with
    | nil => exact absurd rfl hne
    | cons f t =>
      have hpl : prevLink s.store f t :=
        @chain_prevLink _ t f [(f :: t).headI] hl.2.2.2
      exact prevLink_rev hpl hwrap.2
  obtain ⟨hwalkl, hwalkst⟩ := revWalk_spec l.reverse s.store fuel hys_ne hys_nd
    hstop_tail hwl (by simpa using hfuel)
  rw [hhead] at hwalkl hwalkst
  obtain ⟨hloop2, hshape2⟩ := rebuild_fold_from_empty len
    ((revWalk s.store (lastE l) (lastE l) fuel).2)
    { store := (revWalk s.store (lastE l) (lastE l) fuel).1, entry := none,
      boxCache := s.boxCache, orientCache := s.orientCache }
    rfl (by rw [hwalkl]; exact hys_ne) (by rw [hwalkl]; exact hys_nd)
  rw [hwalkl] at hloop2
  set s2 := (l.reverse.foldl (rebuildStep len)
    { store := (revWalk s.store (lastE l) (lastE l) fuel).1, entry := none,
      boxCache := s.boxCache, orientCache := s.orientCache } : FaceState) with hs2
  have hshapes2 : ∀ x, (s2.store x).shape
      = (if x ∈ l.reverse then { (s.store x) with shape := ((s.store x).shape).reverse }
         else s.store x).shape := by
    intro x
    rw [hs2, ← hwalkl]
    rw [hshape2 x]
    exact congrArg EdgeRec.shape (hwalkst x) |>.trans (by rw [hwalkl])
  cases hc : s2.orientCache with
  | none =>
    refine ⟨s2, ?_, hloop2, ?_, ?_⟩
    · simp only [reverseE, hent]
      rw [hwalkl, ← hs2, hc]
    · intro x hx
      have := hshapes2 x
      rw [if_pos (by simpa using hx)] at this
      exact this
    · intro x hx
      have := hshapes2 x
      rw [if_neg (by simpa using hx)] at this
      exact this
  | some o =>
    refine ⟨(orientationE dint fuel { s2 with orientCache := none }).2, ?_, ?_, ?_, ?_⟩
    · simp only [reverseE, hent]
      rw [hwalkl, ← hs2, hc]
    · refine isLoop_of_eq_parts ?_ ?_ hloop2
      · exact (orientationE_frame dint fuel _).1
      · exact (orientationE_frame dint fuel _).2
    · intro x hx
      have hfr := congrFun (orientationE_frame dint fuel
        ({ s2 with orientCache := none } : FaceState)).1 x
      rw [show ({ s2 with orientCache := none } : FaceState).store = s2.store from rfl] at hfr
      rw [hfr]
      have := hshapes2 x
      rw [if_pos (by simpa using hx)] at this
      exact this
    · intro x hx
      have hfr := congrFun (orientationE_frame dint fuel
        ({ s2 with orientCache := none } : FaceState)).1 x
      rw [show ({ s2 with orientCache := none } : FaceState).store = s2.store from rfl] at hfr
      rw [hfr]
      have := hshapes2 x
      rw [if_neg (by simpa using hx)] at this
      exact this

/-- C7.  Applying `reverse()` twice to a nonempty face yields a face
geometrically equal to the original: the same traversal (same edge order from
`first`) and each edge carrying its original shape (reversed twice). -/
theorem c7_reverse_roundtrip (len : Shape → ℚ) (dint : Shape → ℚ → ℚ) (fuel : Nat)
    (s : FaceState) (l : List Nat) (hl : isLoop s l) (hfuel : l.length ≤ fuel) :
    ∃ s1 s2, reverseE len dint fuel s = some s1 ∧ reverseE len dint fuel s1 = some s2 ∧
      traverseF s2 fuel = traverseF s fuel ∧
      (∀ x ∈ traverseF s fuel, (s2.store x).shape = (s.store x).shape) := by
  obtain ⟨s1, hrev1, hloop1, hsh1, hfr1⟩ := reverseE_spec hl hfuel
  obtain ⟨s2, hrev2, hloop2, hsh2, hfr2⟩ := reverseE_spec hloop1 (by simpa using hfuel)
  rw [List.reverse_reverse] at hloop2
  refine ⟨s1, s2, hrev1, hrev2, ?_, ?_⟩
  · rw [traverseF_eq hloop2 hfuel, traverseF_eq hl hfuel]
  · intro x hx
    rw [traverseF_eq hl hfuel] at hx
    rw [hsh2 x (by simpa using hx), hsh1 x hx, Shape.reverse_reverse]

/-- Witness for C7 on a concrete two-edge face. -/
theorem c7_reverse_roundtrip_witness :
    ∃ s1 s2,
      reverseE lenOne defInt 2 (appendE lenOne (appendE lenOne emptyFace 0) 1) = some s1 ∧
      reverseE lenOne defInt 2 s1 = some s2 ∧
      traverseF s2 2
        = traverseF (appendE lenOne (appendE lenOne emptyFace 0) 1) 2 ∧
      (∀ x ∈ traverseF (appendE lenOne (appendE lenOne emptyFace 0) 1) 2,
        (s2.store x).shape
          = ((appendE lenOne (appendE lenOne emptyFace 0) 1).store x).shape) :=
  c7_reverse_roundtrip lenOne defInt 2 (appendE lenOne (appendE lenOne emptyFace 0) 1)
    [0, 1] (by decide) (by decide)

/-- `new Edge(shape)` followed by `this.append(edges, edge)` — used by
`shapes2face`: the fresh edge object is the store slot `id` with its shape
set. -/
def addEdge (len : Shape → ℚ) (s : FaceState) (id : Nat) (sh : Shape) : FaceState :=
  appendE len { s with store := upd s.store id (fun r => { r with shape := sh }) } id

/-- `shapes2face(edges, shapes)`: wrap each shape as an edge (fresh ids in
order) and append. -/
def shapes2face (len : Shape → ℚ) : FaceState → Nat → List Shape → FaceState
  | s, _, [] => s
  | s, nextId, sh :: rest => shapes2face len (addEdge len s nextId sh) (nextId + 1) rest

/-- `Face.points2segments`: segments connecting point `i` to point
`(i+1) mod n`. -/
def points2segments (ps : List Pt) : List Shape :=
  (List.range ps.length).map (fun i =>
    Shape.seg (ps.getD i ⟨0, 0⟩) (ps.getD ((i + 1) % ps.length) ⟨0, 0⟩))

/-- The `Box` branch of the `Face` constructor: four segments
`(xmin,ymin)→(xmax,ymin)→(xmax,ymax)→(xmin,ymax)→(xmin,ymin)`. -/
def faceFromBox (len : Shape → ℚ) (b : BoxQ) : FaceState :=
  shapes2face len emptyFace 0
    [Shape.seg ⟨b.xmin, b.ymin⟩ ⟨b.xmax, b.ymin⟩,
     Shape.seg ⟨b.xmax, b.ymin⟩ ⟨b.xmax, b.ymax⟩,
     Shape.seg ⟨b.xmax, b.ymax⟩ ⟨b.xmin, b.ymax⟩,
     Shape.seg ⟨b.xmin, b.ymax⟩ ⟨b.xmin, b.ymin⟩]

theorem orientationE_CCW (dint : Shape → ℚ → ℚ) (fuel : Nat) (s : FaceState)
    (hnone : s.orientCache = none)
    (h : (signedAreaE dint fuel s).1 < -Utils.DP_TOL) :
    (orientationE dint fuel s).1 = Orient.CCW := by
  have h0 : ¬(|(signedAreaE dint fuel s).1| < Utils.DP_TOL) := by
    rw [abs_lt]
    push_neg
    intro hc
    linarith
  simp [orientationE, hnone, Utils.EQ_0, Utils.LT, h0, h]

theorem boxE_value (fuel : Nat) (s : FaceState) (hnone : s.boxCache = none) :
    (boxE fuel s).1
      = (match boxFold s.store (traverseF s fuel) with
         | none => ⟨0, 0, 0, 0⟩
         | some bb => bb) := by
  simp [boxE, hnone]

theorem signedAreaE_traversal (dint : Shape → ℚ → ℚ) (fuel : Nat) (s : FaceState) :
    (signedAreaE dint fuel s).1
      = (traverseF s fuel).foldl
          (fun acc e => acc + dint ((s.store e).shape) ((boxE fuel s).1).ymin) 0 := by
  have hst : (boxE fuel s).2.store = s.store := (boxE_frame fuel s).1
  have hent : (boxE fuel s).2.entry = s.entry := (boxE_frame fuel s).2.1
  have htrav : traverseF (boxE fuel s).2 fuel = traverseF s fuel := by
    unfold traverseF
    rw [hent, hst]
  show (traverseF (boxE fuel s).2 fuel).foldl
      (fun acc e => acc + dint (((boxE fuel s).2.store e).shape) ((boxE fuel s).1).ymin) 0
    = _
  rw [htrav, hst]

/-- C4 (amended).  A face built from a nondegenerate axis-aligned box has
exactly 4 straight-segment edges whose vertex walk is
(xmin,ymin) → (xmax,ymin) → (xmax,ymax) → (xmin,ymax) → back, forming a valid
loop — and that loop is counter-clockwise (the library's own classification):
its Green's-theorem signed area is −width·height < 0. -/
theorem c4_box_face (len : Shape → ℚ) (b : BoxQ)
    (hx : b.xmin ≤ b.xmax) (hy : b.ymin ≤ b.ymax)
    (harea : Utils.DP_TOL < (b.xmax - b.xmin) * (b.ymax - b.ymin)) :
    sizeE (faceFromBox len b) 4 = 4 ∧
    traverseF (faceFromBox len b) 4 = [0, 1, 2, 3] ∧
    ((faceFromBox len b).store 0).shape = Shape.seg ⟨b.xmin, b.ymin⟩ ⟨b.xmax, b.ymin⟩ ∧
    ((faceFromBox len b).store 1).shape = Shape.seg ⟨b.xmax, b.ymin⟩ ⟨b.xmax, b.ymax⟩ ∧
    ((faceFromBox len b).store 2).shape = Shape.seg ⟨b.xmax, b.ymax⟩ ⟨b.xmin, b.ymax⟩ ∧
    ((faceFromBox len b).store 3).shape = Shape.seg ⟨b.xmin, b.ymax⟩ ⟨b.xmin, b.ymin⟩ ∧
    (∀ e ∈ traverseF (faceFromBox len b) 4,
      (((faceFromBox len b).store e).shape).isSegment = true) ∧
    isLoop (faceFromBox len b) [0, 1, 2, 3] ∧
    (orientationE defInt 4 (faceFromBox len b)).1 = Orient.CCW := by
  have hsh0 : ((faceFromBox len b).store 0).shape
      = Shape.seg ⟨b.xmin, b.ymin⟩ ⟨b.xmax, b.ymin⟩ := rfl
  have hsh1 : ((faceFromBox len b).store 1).shape
      = Shape.seg ⟨b.xmax, b.ymin⟩ ⟨b.xmax, b.ymax⟩ := rfl
  have hsh2 : ((faceFromBox len b).store 2).shape
      = Shape.seg ⟨b.xmax, b.ymax⟩ ⟨b.xmin, b.ymax⟩ := rfl
  have hsh3 : ((faceFromBox len b).store 3).shape
      = Shape.seg ⟨b.xmin, b.ymax⟩ ⟨b.xmin, b.ymin⟩ := rfl
  have htrav : traverseF (faceFromBox len b) 4 = [0, 1, 2, 3] := rfl
  have hloop : isLoop (faceFromBox len b) [0, 1, 2, 3] :=
    ⟨by simp, by decide, rfl, (adjChainB_iff _ _).mp rfl⟩
  have hbcache : (faceFromBox len b).boxCache = none := rfl
  have hocache : (faceFromBox len b).orientCache = none := rfl
  have hymin : ((boxE 4 (faceFromBox len b)).1).ymin = b.ymin := by
    rw [boxE_value _ _ hbcache, htrav]
    simp only [boxFold, List.foldl, hsh0, hsh1, hsh2, hsh3, shapeBox, boxMerge]
    simp [min_self, min_eq_left hy, min_comm, min_assoc, min_left_comm]
  have hval : (signedAreaE defInt 4 (faceFromBox len b)).1
      = -((b.xmax - b.xmin) * (b.ymax - b.ymin)) := by
    rw [signedAreaE_traversal, htrav]
    simp only [List.foldl, hsh0, hsh1, hsh2, hsh3, defInt, hymin]
    ring
  refine ⟨by simp [sizeE, htrav], htrav, hsh0, hsh1, hsh2, hsh3, ?_, hloop, ?_⟩
  · intro e he
    rw [htrav] at he
    fin_cases he <;> rfl
  · apply orientationE_CCW _ _ _ hocache
    rw [hval]
    linarith

/-- C4 counterexample to the claim as stated: the unit-box face's orientation
is CCW, not CW. -/
theorem c4_box_counterexample :
    (orientationE defInt 4 (faceFromBox lenOne ⟨0, 0, 1, 1⟩)).1 = Orient.CCW ∧
    Orient.CCW ≠ Orient.CW := by
  constructor
  · apply orientationE_CCW _ _ _ rfl
    have hval : (signedAreaE defInt 4 (faceFromBox lenOne ⟨0, 0, 1, 1⟩)).1 = -1 := by
      rw [signedAreaE_traversal]
      norm_num [traverseF, travAux, faceFromBox, shapes2face, addEdge, appendE, emptyFace,
        upd, defInt, boxE, boxFold, shapeBox, boxMerge, List.foldl]
    rw [hval]
    norm_num [Utils.DP_TOL]
  · simp

/-- Witness for the amended C4 at a concrete box. -/
theorem c4_box_face_witness :
    sizeE (faceFromBox lenOne ⟨0, 0, 2, 3⟩) 4 = 4 ∧
    traverseF (faceFromBox lenOne ⟨0, 0, 2, 3⟩) 4 = [0, 1, 2, 3] ∧
    ((faceFromBox lenOne ⟨0, 0, 2, 3⟩).store 0).shape = Shape.seg ⟨0, 0⟩ ⟨2, 0⟩ ∧
    ((faceFromBox lenOne ⟨0, 0, 2, 3⟩).store 1).shape = Shape.seg ⟨2, 0⟩ ⟨2, 3⟩ ∧
    ((faceFromBox lenOne ⟨0, 0, 2, 3⟩).store 2).shape = Shape.seg ⟨2, 3⟩ ⟨0, 3⟩ ∧
    ((faceFromBox lenOne ⟨0, 0, 2, 3⟩).store 3).shape = Shape.seg ⟨0, 3⟩ ⟨0, 0⟩ ∧
    (∀ e ∈ traverseF (faceFromBox lenOne ⟨0, 0, 2, 3⟩) 4,
      (((faceFromBox lenOne ⟨0, 0, 2, 3⟩).store e).shape).isSegment = true) ∧
    isLoop (faceFromBox lenOne ⟨0, 0, 2, 3⟩) [0, 1, 2, 3] ∧
    (orientationE defInt 4 (faceFromBox lenOne ⟨0, 0, 2, 3⟩)).1 = Orient.CCW :=
  c4_box_face lenOne ⟨0, 0, 2, 3⟩ (by norm_num) (by norm_num)
    (by norm_num [Utils.DP_TOL])

/-- A value appearing in the constructor's array argument.  `jsRecord` is a
deserialized plain object with a `name` field (the JSON branch); the other
constructors are instances of the shape classes. -/
inductive JSVal where
  | jsPoint (p : Pt)
  | jsSegment (ps pe : Pt)
  | jsArc (ps pe : Pt) (ccw : Bool)
  | jsRecord (name : String) (ps pe : Pt) (ccw : Bool)
deriving DecidableEq, Repr

namespace JSVal

/-- `shape instanceof Point`. -/
def isPoint : JSVal → Bool
  | jsPoint _ => true
  | _ => false

/-- `shape instanceof Segment || shape instanceof Arc`. -/
def isShape : JSVal → Bool
  | jsSegment _ _ => true
  | jsArc _ _ _ => true
  | _ => false

/-- Modelled from the spec: the `name` property read by the JSON branch.
Serialized records carry their name; the 2017-era shape and point instances
expose none. -/
def nameOf : JSVal → Option String
  | jsRecord n _ _ _ => some n
  | _ => none

/-- `shape.name === "segment" || shape.name === "arc"`. -/
def isSerializedShape (v : JSVal) : Bool :=
  decide (v.nameOf = some "segment") || decide (v.nameOf = some "arc")

def toPt : JSVal → Pt
  | jsPoint p => p
  | _ => ⟨0, 0⟩

/-- The shape wrapped (or, for a record, rebuilt via `new Segment(shape)` /
`new Arc(shape)`). -/
def toShape : JSVal → Shape
  | jsSegment ps pe => .seg ps pe
  | jsArc ps pe ccw => .arc ps pe ccw
  | jsRecord n ps pe ccw => if n = "segment" then .seg ps pe else .arc ps pe ccw
  | jsPoint _ => .seg ⟨0, 0⟩ ⟨0, 0⟩

end JSVal

/-- The array branch of the `Face` constructor: dispatch on the runtime type
of the elements; an unrecognized mix falls through every branch and the face
stays as constructed (empty), with no error signalled (the embedding is a
total function). -/
def faceFromArray (len : Shape → ℚ) (shapes : List JSVal) : FaceState :=
  if shapes = [] then emptyFace
  else if shapes.all JSVal.isPoint then
    shapes2face len emptyFace 0 (points2segments (shapes.map JSVal.toPt))
  else if shapes.all JSVal.isShape then
    shapes2face len emptyFace 0 (shapes.map JSVal.toShape)
  else if shapes.all JSVal.isSerializedShape then
    shapes2face len emptyFace 0 (shapes.map JSVal.toShape)
  else emptyFace

/-- C9.  A nonempty array that is not all points, not all segment/arc
instances, and not all recognized serialized records falls through every
constructor branch: the face remains empty (`isEmpty`, size 0) and no error is
signalled. -/
theorem c9_unrecognized_array (len : Shape → ℚ) (shapes : List JSVal) (fuel : Nat)
    (hne : shapes ≠ [])
    (hp : shapes.all JSVal.isPoint = false)
    (hs : shapes.all JSVal.isShape = false)
    (hr : shapes.all JSVal.isSerializedShape = false) :
    faceFromArray len shapes = emptyFace ∧
    (faceFromArray len shapes).isEmpty = true ∧
    sizeE (faceFromArray len shapes) fuel = 0 := by
  have h : faceFromArray len shapes = emptyFace := by
    simp [faceFromArray, hne, hp, hs, hr]
  refine ⟨h, ?_, ?_⟩
  · rw [h]; rfl
  · rw [h]
    simp [sizeE, traverseF, emptyFace]

/-- Witness for C9: a point mixed with a segment instance. -/
theorem c9_unrecognized_array_witness :
    faceFromArray lenOne [JSVal.jsPoint ⟨0, 0⟩, JSVal.jsSegment ⟨0, 0⟩ ⟨1, 1⟩]
      = emptyFace ∧
    (faceFromArray lenOne
      [JSVal.jsPoint ⟨0, 0⟩, JSVal.jsSegment ⟨0, 0⟩ ⟨1, 1⟩]).isEmpty = true ∧
    sizeE (faceFromArray lenOne
      [JSVal.jsPoint ⟨0, 0⟩, JSVal.jsSegment ⟨0, 0⟩ ⟨1, 1⟩]) 3 = 0 :=
  c9_unrecognized_array lenOne [JSVal.jsPoint ⟨0, 0⟩, JSVal.jsSegment ⟨0, 0⟩ ⟨1, 1⟩] 3
    (by decide) (by decide) (by decide) (by decide)

/-- Innermost loop of `getSelfIntersections` over the intersection points of
`edge1.shape.intersect(edge2.shape)`: a point equal to the loop joint shared
with the predecessor (`pt == e1.start == e2.end`, `e2 === e1.prev`) or with the
successor (`pt == e1.end == e2.start`, `e2 === e1.next`) is skipped; any other
point is pushed, and with `exitOnFirst` the loop breaks after the first push.
Point equality is modelled from the spec as exact coordinate equality
(`Point.equalTo` is not under src/). -/
def ptLoop (st : Nat → EdgeRec) (e1 e2 : Nat) (exitOnFirst : Bool) :
    List Pt → List Pt → List Pt
  | [], acc => acc
  | pt :: rest, acc =>
      if pt = ((st e1).shape).start ∧ pt = ((st e2).shape).«end» ∧
          e2 = (st e1).prev then
        ptLoop st e1 e2 exitOnFirst rest acc
      else if pt = ((st e1).shape).«end» ∧ pt = ((st e2).shape).start ∧
          e2 = (st e1).next then
        ptLoop st e1 e2 exitOnFirst rest acc
      else if exitOnFirst then acc ++ [pt]
      else ptLoop st e1 e2 exitOnFirst rest (acc ++ [pt])

/-- Middle loop of `getSelfIntersections` over the search response: skip
`edge1 === edge2`; skip an immediate neighbour when both shapes are segments;
otherwise intersect the shapes and run the point loop; break when points were
found and `exitOnFirst`. -/
def e2Loop (st : Nat → EdgeRec) (intersect : Shape → Shape → List Pt)
    (e1 : Nat) (exitOnFirst : Bool) : List Nat → List Pt → List Pt
  | [], acc => acc
  | e2 :: rest, acc =>
      if e1 = e2 then e2Loop st intersect e1 exitOnFirst rest acc
      else if ((st e1).shape).isSegment = true ∧ ((st e2).shape).isSegment = true ∧
          ((st e1).next = e2 ∨ (st e1).prev = e2) then
        e2Loop st intersect e1 exitOnFirst rest acc
      else if 0 < (ptLoop st e1 e2 exitOnFirst
          (intersect ((st e1).shape) ((st e2).shape)) acc).length ∧
          exitOnFirst = true then
        ptLoop st e1 e2 exitOnFirst (intersect ((st e1).shape) ((st e2).shape)) acc
      else
        e2Loop st intersect e1 exitOnFirst rest
          (ptLoop st e1 e2 exitOnFirst
            (intersect ((st e1).shape) ((st e2).shape)) acc)

/-- Outer loop of `getSelfIntersections` over the face's edges in traversal
order; `search` models `edges.search(edge1.box)`. -/
def e1Loop (st : Nat → EdgeRec) (search : BoxQ → List Nat)
    (intersect : Shape → Shape → List Pt) (exitOnFirst : Bool) :
    List Nat → List Pt → List Pt
  | [], acc => acc
  | e1 :: rest, acc =>
      if 0 < (e2Loop st intersect e1 exitOnFirst
          (search (shapeBox ((st e1).shape))) acc).length ∧
          exitOnFirst = true then
        e2Loop st intersect e1 exitOnFirst (search (shapeBox ((st e1).shape))) acc
      else
        e1Loop st search intersect exitOnFirst rest
          (e2Loop st intersect e1 exitOnFirst
            (search (shapeBox ((st e1).shape))) acc)

/-- `Face.getSelfIntersections(face, edges, exitOnFirst)`, parameterized by the
external spatial index (`search`) and the external shape-intersection
primitive (`intersect`), with the face iterator fuel-bounded as elsewhere. -/
def getSelfIntersections (search : BoxQ → List Nat)
    (intersect : Shape → Shape → List Pt) (fuel : Nat) (s : FaceState)
    (exitOnFirst : Bool) : List Pt :=
  e1Loop s.store search intersect exitOnFirst (traverseF s fuel) []

/-- The joint filter of the innermost loop, as a Boolean predicate: keep a
point unless it is one of the two start-end connections. -/
def keepPt (st : Nat → EdgeRec) (e1 e2 : Nat) (pt : Pt) : Bool :=
  !(decide (pt = ((st e1).shape).start) && decide (pt = ((st e2).shape).«end»)
      && decide (e2 = (st e1).prev)) &&
  !(decide (pt = ((st e1).shape).«end») && decide (pt = ((st e2).shape).start)
      && decide (e2 = (st e1).next))

/-- The points one candidate pair contributes when `exitOnFirst` is off. -/
def pairPts (st : Nat → EdgeRec) (intersect : Shape → Shape → List Pt)
    (e1 e2 : Nat) : List Pt :=
  if e1 = e2 then []
  else if ((st e1).shape).isSegment = true ∧ ((st e2).shape).isSegment = true ∧
      ((st e1).next = e2 ∨ (st e1).prev = e2) then []
  else (intersect ((st e1).shape) ((st e2).shape)).filter (keepPt st e1 e2)

/-- Concatenation of the images of a list, used to state the loop normal
forms. -/
def catMap (f : Nat → List Pt) : List Nat → List Pt
  | [] => []
  | x :: xs => f x ++ catMap f xs

theorem keepPt_iff (st : Nat → EdgeRec) (e1 e2 : Nat) (pt : Pt) :
    keepPt st e1 e2 pt = true ↔
      ¬(pt = ((st e1).shape).start ∧ pt = ((st e2).shape).«end» ∧
          e2 = (st e1).prev) ∧
      ¬(pt = ((st e1).shape).«end» ∧ pt = ((st e2).shape).start ∧
          e2 = (st e1).next) := by
  simp only [keepPt, Bool.and_eq_true, Bool.not_eq_true', Bool.and_eq_false_iff,
    decide_eq_false_iff_not, decide_eq_true_eq]
  tauto

theorem ptLoop_false (st : Nat → EdgeRec) (e1 e2 : Nat) :
    ∀ (ip acc : List Pt), ptLoop st e1 e2 false ip acc
      = acc ++ ip.filter (keepPt st e1 e2) := by
  intro ip
  induction ip with
  | nil => intro acc; simp [ptLoop]
  | cons pt rest ih =>
      intro acc
      by_cases h1 : pt = ((st e1).shape).start ∧ pt = ((st e2).shape).«end» ∧
          e2 = (st e1).prev
      · have hk : keepPt st e1 e2 pt = false := by
          rw [Bool.eq_false_iff, Ne, keepPt_iff]
          intro hcon
          exact hcon.1 h1
        simp only [ptLoop, if_pos h1, ih, List.filter_cons, hk]
        simp
      · by_cases h2 : pt = ((st e1).shape).«end» ∧ pt = ((st e2).shape).start ∧
            e2 = (st e1).next
        · have hk : keepPt st e1 e2 pt = false := by
            rw [Bool.eq_false_iff, Ne, keepPt_iff]
            intro hcon
            exact hcon.2 h2
          simp only [ptLoop, if_neg h1, if_pos h2, ih, List.filter_cons, hk]
          simp
        · have hk : keepPt st e1 e2 pt = true := by
            rw [keepPt_iff]; exact ⟨h1, h2⟩
          simp only [ptLoop, if_neg h1, if_neg h2, Bool.false_eq_true, if_false,
            ih, List.filter_cons, hk]
          simp

theorem e2Loop_false (st : Nat → EdgeRec) (intersect : Shape → Shape → List Pt)
    (e1 : Nat) :
    ∀ (cs : List Nat) (acc : List Pt),
      e2Loop st intersect e1 false cs acc
        = acc ++ catMap (pairPts st intersect e1) cs := by
  intro cs
  induction cs with
  | nil => intro acc; simp [e2Loop, catMap]
  | cons e2 rest ih =>
      intro acc
      by_cases h1 : e1 = e2
      · simp only [e2Loop, if_pos h1, ih, catMap, pairPts, if_pos h1]
        simp
      · by_cases h2 : ((st e1).shape).isSegment = true ∧
            ((st e2).shape).isSegment = true ∧
            ((st e1).next = e2 ∨ (st e1).prev = e2)
        · simp only [e2Loop, if_neg h1, if_pos h2, ih, catMap, pairPts, if_neg h1,
            if_pos h2]
          simp
        · have hbrk : ¬(0 < (ptLoop st e1 e2 false
              (intersect ((st e1).shape) ((st e2).shape)) acc).length ∧
              false = true) := by simp
          simp only [e2Loop, if_neg h1, if_neg h2, if_neg hbrk, ih, ptLoop_false,
            catMap, pairPts]
          simp [List.append_assoc]

theorem e1Loop_false (st : Nat → EdgeRec) (search : BoxQ → List Nat)
    (intersect : Shape → Shape → List Pt) :
    ∀ (es : List Nat) (acc : List Pt),
      e1Loop st search intersect false es acc
        = acc ++ catMap (fun e1 => catMap (pairPts st intersect e1)
            (search (shapeBox ((st e1).shape)))) es := by
  intro es
  induction es with
  | nil => intro acc; simp [e1Loop, catMap]
  | cons e1 rest ih =>
      intro acc
      have hbrk : ¬(0 < (e2Loop st intersect e1 false
          (search (shapeBox ((st e1).shape))) acc).length ∧ false = true) := by
        simp
      simp only [e1Loop, if_neg hbrk, ih, e2Loop_false, catMap]
      simp [List.append_assoc]

theorem gsi_false_eq (search : BoxQ → List Nat)
    (intersect : Shape → Shape → List Pt) (fuel : Nat) (s : FaceState) :
    getSelfIntersections search intersect fuel s false
      = catMap (fun e1 => catMap (pairPts s.store intersect e1)
          (search (shapeBox ((s.store e1).shape)))) (traverseF s fuel) := by
  unfold getSelfIntersections
  rw [e1Loop_false]
  simp

theorem catMap_congr (f g : Nat → List Pt) :
    ∀ l : List Nat, (∀ x ∈ l, f x = g x) → catMap f l = catMap g l := by
  intro l
  induction l with
  | nil => intro _; rfl
  | cons x xs ih =>
      intro h
      simp only [catMap]
      rw [h x (List.mem_cons_self x xs),
        ih (fun y hy => h y (List.mem_cons_of_mem x hy))]

theorem mem_catMap (f : Nat → List Pt) (pt : Pt) :
    ∀ l : List Nat, (pt ∈ catMap f l ↔ ∃ x ∈ l, pt ∈ f x) := by
  intro l
  induction l with
  | nil => simp [catMap]
  | cons x xs ih => simp [catMap, ih, List.mem_append, or_and_right, exists_or]

theorem mem_pairPts (st : Nat → EdgeRec) (intersect : Shape → Shape → List Pt)
    (e1 e2 : Nat) (pt : Pt) :
    pt ∈ pairPts st intersect e1 e2 ↔
      ¬ e1 = e2 ∧
      ¬(((st e1).shape).isSegment = true ∧ ((st e2).shape).isSegment = true ∧
          ((st e1).next = e2 ∨ (st e1).prev = e2)) ∧
      pt ∈ intersect ((st e1).shape) ((st e2).shape) ∧
      ¬(pt = ((st e1).shape).start ∧ pt = ((st e2).shape).«end» ∧
          e2 = (st e1).prev) ∧
      ¬(pt = ((st e1).shape).«end» ∧ pt = ((st e2).shape).start ∧
          e2 = (st e1).next) := by
  unfold pairPts
  by_cases h1 : e1 = e2
  · simp [h1]
  · by_cases h2 : ((st e1).shape).isSegment = true ∧
        ((st e2).shape).isSegment = true ∧
        ((st e1).next = e2 ∨ (st e1).prev = e2)
    · simp [if_neg h1, h2, h1]
    · rw [if_neg h1, if_neg h2]
      simp only [List.mem_filter, keepPt_iff]
      constructor
      · rintro ⟨hm, hk1, hk2⟩
        exact ⟨h1, h2, hm, hk1, hk2⟩
      · rintro ⟨-, -, hm, hk1, hk2⟩
        exact ⟨hm, hk1, hk2⟩

/-- C5.  With `exitOnFirst` off, a point `pt` appears in the result of
`getSelfIntersections` iff it is an intersection point of some traversed edge
`e1` with some candidate `e2` from the box search that is not skipped, and `pt`
is NOT one of the two loop joints: exactly equal (exact coordinate equality) to
both `e1.start` and `e2.end` while `e2` is `e1`'s predecessor, or exactly equal
to both `e1.end` and `e2.start` while `e2` is `e1`'s successor.  All other
intersection points are collected. -/
theorem c5_joint_discard (search : BoxQ → List Nat)
    (intersect : Shape → Shape → List Pt) (fuel : Nat) (s : FaceState) :
    ∀ pt : Pt,
      pt ∈ getSelfIntersections search intersect fuel s false ↔
      ∃ e1 ∈ traverseF s fuel,
        ∃ e2 ∈ search (shapeBox ((s.store e1).shape)),
          ¬ e1 = e2 ∧
          ¬(((s.store e1).shape).isSegment = true ∧
              ((s.store e2).shape).isSegment = true ∧
              ((s.store e1).next = e2 ∨ (s.store e1).prev = e2)) ∧
          pt ∈ intersect ((s.store e1).shape) ((s.store e2).shape) ∧
          ¬(pt = ((s.store e1).shape).start ∧ pt = ((s.store e2).shape).«end» ∧
              e2 = (s.store e1).prev) ∧
          ¬(pt = ((s.store e1).shape).«end» ∧ pt = ((s.store e2).shape).start ∧
              e2 = (s.store e1).next) := by
  intro pt
  rw [gsi_false_eq]
  simp only [mem_catMap, mem_pairPts]

/-- C6.  With `exitOnFirst` off, the result of `getSelfIntersections` is the
concatenation over traversed edges `e1` and box-search candidates `e2` of: the
empty list exactly when `e2` is `e1` itself, or `e2` is `e1`'s immediate
predecessor or successor AND both shapes are straight segments (the skip,
computing no intersections); otherwise the intersection points of the two
shapes filtered by the joint test — in particular an adjacent pair in which
either shape is an arc is not skipped and its intersections are computed. -/
theorem c6_skip_condition (search : BoxQ → List Nat)
    (intersect : Shape → Shape → List Pt) (fuel : Nat) (s : FaceState) :
    getSelfIntersections search intersect fuel s false
      = catMap (fun e1 =>
          catMap (fun e2 =>
              if e2 = e1 ∨ (((s.store e1).next = e2 ∨ (s.store e1).prev = e2) ∧
                  ((s.store e1).shape).isSegment = true ∧
                  ((s.store e2).shape).isSegment = true)
              then []
              else (intersect ((s.store e1).shape) ((s.store e2).shape)).filter
                  (keepPt s.store e1 e2))
            (search (shapeBox ((s.store e1).shape))))
        (traverseF s fuel) := by
  rw [gsi_false_eq]
  refine catMap_congr _ _ (traverseF s fuel) ?_
  intro e1 _
  refine catMap_congr _ _ (search (shapeBox ((s.store e1).shape))) ?_
  intro e2 _
  unfold pairPts
  by_cases h1 : e1 = e2
  · rw [if_pos h1, if_pos (Or.inl h1.symm)]
  · by_cases h2 : ((s.store e1).shape).isSegment = true ∧
        ((s.store e2).shape).isSegment = true ∧
        ((s.store e1).next = e2 ∨ (s.store e1).prev = e2)
    · rw [if_neg h1, if_pos h2, if_pos (Or.inr ⟨h2.2.2, h2.1, h2.2.1⟩)]
    · have hcl : ¬(e2 = e1 ∨ (((s.store e1).next = e2 ∨ (s.store e1).prev = e2) ∧
          ((s.store e1).shape).isSegment = true ∧
          ((s.store e2).shape).isSegment = true)) := by
        intro h
        rcases h with h | h
        · exact h1 h.symm
        · exact h2 ⟨h.2.1, h.2.2, h.1⟩
      rw [if_neg h1, if_neg h2, if_neg hcl]
